import Mathlib

/-!
Verification development for the PasteBro clipboard manager.
Shallow embedding of the capture-and-persistence pipeline:
content hashing, item (de)serialization, the SQLite-backed history
store, the history coordinator, and the file-based image store.
-/

set_option maxRecDepth 100000

deriving instance DecidableEq for Except

namespace PasteBro

/-! ## SHA-256 (crypto.createHash('sha256'), as used for content hashes) -/

/-- 2^32, the word modulus of SHA-256. -/
def w32 : Nat := 4294967296

/-- Right rotation of a 32-bit word. -/
def rotr (n x : Nat) : Nat := ((x >>> n) ||| (x <<< (32 - n))) % w32

/-- The 64 SHA-256 round constants (fractional parts of cube roots of the first 64 primes). -/
def shaK : List Nat := [1116352408, 1899447441, 3049323471, 3921009573, 961987163, 1508970993, 2453635748, 2870763221, 3624381080, 310598401, 607225278, 1426881987, 1925078388, 2162078206, 2614888103, 3248222580, 3835390401, 4022224774, 264347078, 604807628, 770255983, 1249150122, 1555081692, 1996064986, 2554220882, 2821834349, 2952996808, 3210313671, 3336571891, 3584528711, 113926993, 338241895, 666307205, 773529912, 1294757372, 1396182291, 1695183700, 1986661051, 2177026350, 2456956037, 2730485921, 2820302411, 3259730800, 3345764771, 3516065817, 3600352804, 4094571909, 275423344, 430227734, 506948616, 659060556, 883997877, 958139571, 1322822218, 1537002063, 1747873779, 1955562222, 2024104815, 2227730452, 2361852424, 2428436474, 2756734187, 3204031479, 3329325298]

/-- The initial SHA-256 hash state. -/
def shaH0 : List Nat := [1779033703, 3144134277, 1013904242, 2773480762, 1359893119, 2600822924, 528734635, 1541459225]

/-- Number of zero pad bytes for a message of length `l`. -/
def padZeros (l : Nat) : Nat := (64 - ((l + 9) % 64)) % 64

/-- Big-endian byte encoding of `n` in `k` bytes. -/
def beBytes : Nat → Nat → List Nat
  | 0, _ => []
  | k + 1, n => beBytes k (n / 256) ++ [n % 256]

/-- SHA-256 message padding. -/
def shaPad (msg : List Nat) : List Nat :=
  msg ++ [128] ++ List.replicate (padZeros msg.length) 0 ++ beBytes 8 (8 * msg.length)

/-- Split a byte list into 64-byte chunks, structurally (carrying the current partial chunk). -/
def chunksAux (acc : List Nat) : List Nat → List (List Nat)
  | [] => if acc.isEmpty then [] else [acc]
  | b :: rest =>
    if acc.length = 63 then (acc ++ [b]) :: chunksAux [] rest
    else chunksAux (acc ++ [b]) rest

/-- Split a byte list into 64-byte chunks (input length must be a multiple of 64). -/
def chunks64 (l : List Nat) : List (List Nat) := chunksAux [] l

/-- Combine 4 consecutive bytes into big-endian 32-bit words. -/
def toWords : List Nat → List Nat
  | a :: b :: c :: d :: rest => (((a * 256 + b) * 256 + c) * 256 + d) :: toWords rest
  | _ => []

/-- One step of the SHA-256 message-schedule extension. -/
def extendStep (w : List Nat) : List Nat :=
  let n := w.length
  let g := fun i => w.getD i 0
  let s0 := (rotr 7 (g (n - 15))) ^^^ (rotr 18 (g (n - 15))) ^^^ ((g (n - 15)) >>> 3)
  let s1 := (rotr 17 (g (n - 2))) ^^^ (rotr 19 (g (n - 2))) ^^^ ((g (n - 2)) >>> 10)
  w ++ [(g (n - 16) + s0 + g (n - 7) + s1) % w32]

/-- Extend 16 message words to the 64-entry schedule. -/
def schedule (w : List Nat) : List Nat :=
  (List.range 48).foldl (fun acc _ => extendStep acc) w

/-- One SHA-256 compression round. -/
def round1 (st : List Nat) (kw : Nat × Nat) : List Nat :=
  let g := fun i => st.getD i 0
  let a := g 0; let b := g 1; let c := g 2; let d := g 3
  let e := g 4; let f := g 5; let gg := g 6; let h := g 7
  let s1 := (rotr 6 e) ^^^ (rotr 11 e) ^^^ (rotr 25 e)
  let ch := (e &&& f) ^^^ ((w32 - 1 - e) &&& gg)
  let t1 := (h + s1 + ch + kw.1 + kw.2) % w32
  let s0 := (rotr 2 a) ^^^ (rotr 13 a) ^^^ (rotr 22 a)
  let mj := (a &&& b) ^^^ (a &&& c) ^^^ (b &&& c)
  let t2 := (s0 + mj) % w32
  [(t1 + t2) % w32, a, b, c, (d + t1) % w32, e, f, gg]

/-- Compress one 64-byte chunk into the running hash state. -/
def compress (hs : List Nat) (chunk : List Nat) : List Nat :=
  let w := schedule (toWords chunk)
  let st := (shaK.zip w).foldl round1 hs
  (hs.zip st).map (fun p => (p.1 + p.2) % w32)

/-- SHA-256 of a byte list, as a list of 8 32-bit words. -/
def sha256Words (msg : List Nat) : List Nat :=
  (chunks64 (shaPad msg)).foldl compress shaH0

/-- Lower-case hex digit for a value below 16. -/
def hexDigit (n : Nat) : Char :=
  if n < 10 then Char.ofNat (48 + n) else Char.ofNat (87 + n)

/-- 8-hex-digit rendering of a 32-bit word. -/
def hexWord (n : Nat) : List Char :=
  [hexDigit (n / 268435456 % 16), hexDigit (n / 16777216 % 16),
   hexDigit (n / 1048576 % 16), hexDigit (n / 65536 % 16),
   hexDigit (n / 4096 % 16), hexDigit (n / 256 % 16),
   hexDigit (n / 16 % 16), hexDigit (n % 16)]

/-- Hex digest string of a byte list (crypto `digest('hex')`). -/
def sha256hex (msg : List Nat) : String :=
  ⟨(sha256Words msg).foldr (fun wd acc => hexWord wd ++ acc) []⟩

/-- UTF-8 bytes of one character. -/
def utf8Char (c : Char) : List Nat :=
  let n := c.toNat
  if n < 128 then [n]
  else if n < 2048 then [192 + n / 64, 128 + n % 64]
  else if n < 65536 then [224 + n / 4096, 128 + n / 64 % 64, 128 + n % 64]
  else [240 + n / 262144, 128 + n / 4096 % 64, 128 + n / 64 % 64, 128 + n % 64]

/-- UTF-8 bytes of a string (Buffer contents of a JS string). -/
def strBytes (s : String) : List Nat := s.data.flatMap utf8Char

/-- Digest of a string: `createHash('sha256').update(s).digest('hex')`. -/
def sha256str (s : String) : String := sha256hex (strBytes s)

theorem sha256_empty_vector : sha256str "" = "e3b0c44298fc1c149afbf4c8996fb92427ae41e4649b934ca495991b7852b855" := by decide

theorem sha256_abc_vector : sha256str "abc" = "ba7816bf8f01cfea414140de5dae2223b00361a396177a9cb410ff61f20015ad" := by decide

/-! ## Base64 (Buffer.prototype.toString('base64')) -/

/-- The standard base64 alphabet. -/
def b64Alphabet : List Char := "ABCDEFGHIJKLMNOPQRSTUVWXYZabcdefghijklmnopqrstuvwxyz0123456789+/".data

/-- Base64 character for a 6-bit value. -/
def b64Char (n : Nat) : Char := b64Alphabet.getD n 'A'

/-- Base64 encoding of a byte list, with `=` padding. -/
def b64 : List Nat → List Char
  | a :: b :: c :: rest =>
    let n := a * 65536 + b * 256 + c
    b64Char (n / 262144) :: b64Char (n / 4096 % 64) :: b64Char (n / 64 % 64) :: b64Char (n % 64) :: b64 rest
  | [a, b] =>
    let n := a * 1024 + b * 4
    [b64Char (n / 4096), b64Char (n / 64 % 64), b64Char (n % 64), '=']
  | [a] =>
    let n := a * 16
    [b64Char (n / 64), b64Char (n % 64), '=', '=']
  | [] => []

/-! ## JSON serialization of string arrays (JSON.stringify / JSON.parse)

JSON.stringify escapes `"` and `\` in strings (control characters, which never
occur in the file-type strings this program serializes, are not modelled). -/

/-- Escape one character as inside a JSON string literal. -/
def jsonEscChar (c : Char) : List Char :=
  if c = '"' ∨ c = '\\' then ['\\', c] else [c]

/-- A JSON string literal for `s`. -/
def jsonQuote (s : String) : List Char := '"' :: (s.data.flatMap jsonEscChar ++ ['"'])

/-- Join pieces with commas. -/
def joinComma : List (List Char) → List Char
  | [] => []
  | [x] => x
  | x :: y :: xs => x ++ ',' :: joinComma (y :: xs)

/-- JSON.stringify of an array of strings. -/
def jsonStrArr (l : List String) : String := ⟨'[' :: (joinComma (l.map jsonQuote) ++ [']'])⟩

/-- Parse the body of a JSON string literal after the opening quote; returns
the decoded characters and the rest of the input after the closing quote. -/
def parseStrBody : List Char → Option (List Char × List Char)
  | [] => none
  | c :: rest =>
    if c = '\\' then
      match rest with
      | [] => none
      | d :: rest2 => (parseStrBody rest2).map (fun p => (d :: p.1, p.2))
    else if c = '"' then some ([], rest)
    else (parseStrBody rest).map (fun p => (c :: p.1, p.2))

/-- Parse one or more comma-separated JSON string literals followed by `]`. -/
def parseArrItems : Nat → List Char → Option (List (List Char) × List Char)
  | 0, _ => none
  | _ + 1, [] => none
  | fuel + 1, c :: rest =>
    if c = '"' then
      match parseStrBody rest with
      | none => none
      | some (s, rest2) =>
        match rest2 with
        | ',' :: rest3 => (parseArrItems fuel rest3).map (fun p => (s :: p.1, p.2))
        | ']' :: rest3 => some ([s], rest3)
        | _ => none
    else none

/-- JSON.parse specialised to arrays of strings; `none` models a parse error. -/
def jsonParseStrArr (s : String) : Option (List String) :=
  match s.data with
  | '[' :: ']' :: rest => if rest.isEmpty then some [] else none
  | '[' :: rest =>
    match parseArrItems (rest.length + 1) rest with
    | some (items, []) => some (items.map (fun cs => ⟨cs⟩))
    | _ => none
  | _ => none

/-! ## Paths (node path.join for relative paths) -/

/-- Split a character list on `/` (keeping empty segments). -/
def splitSlash : List Char → List (List Char)
  | [] => [[]]
  | c :: rest =>
    if c = '/' then [] :: splitSlash rest
    else
      match splitSlash rest with
      | [] => [[c]]
      | s :: ss => (c :: s) :: ss

/-- One step of path normalization over segments, with the processed stack reversed. -/
def normStep (stack : List (List Char)) (seg : List Char) : List (List Char) :=
  if seg = [] ∨ seg = ['.'] then stack
  else if seg = ['.', '.'] then
    match stack with
    | [] => [['.', '.']]
    | top :: rest => if top = ['.', '.'] then seg :: stack else rest
  else seg :: stack

/-- Normalize a segment list: drop empty and `.` segments, resolve `..`. -/
def normSegs (segs : List (List Char)) : List (List Char) :=
  (segs.foldl normStep []).reverse

/-- Join segments with `/`. -/
def joinSegsAux : List (List Char) → List Char
  | [] => []
  | [x] => x
  | x :: y :: xs => x ++ '/' :: joinSegsAux (y :: xs)

/-- node `path.join(a, b)` for relative paths: concatenate then normalize. -/
def pathJoin (a b : String) : String :=
  match normSegs (splitSlash (a.data ++ '/' :: b.data)) with
  | [] => "."
  | segs => ⟨joinSegsAux segs⟩

/-- A path segment that normalization passes through untouched. -/
def plainSeg (seg : List Char) : Bool :=
  !(seg.isEmpty || seg == ['.'] || seg == ['.', '.'])

/-- A path all of whose segments are plain. -/
def goodPath (s : String) : Bool := (splitSlash s.data).all plainSeg

/-- Does `s` contain `pat` as a contiguous substring (JS String.prototype.includes)? -/
def hasSubList : List Char → List Char → Bool
  | [], pat => pat.isEmpty
  | l, pat =>
    match l with
    | [] => pat.isEmpty
    | _ :: rest => pat.isPrefixOf l || hasSubList rest pat

/-- JS `s.includes(pat)`. -/
def strIncludes (s pat : String) : Bool := hasSubList s.data pat.data

/-! ## Item model (clipboardItem.js) -/

/-- One captured clipboard entry (class ClipboardItem). Binary payloads are byte
lists; nullable JS fields are `Option`. -/
structure ClipboardItem where
  id : String
  type : String
  timestamp : Int
  isPinned : Bool
  isDeleted : Bool
  contentHash : String
  plainText : Option String
  richText : Option String
  imageData : Option (List Nat)
  imageThumbnail : Option (List Nat)
  imagePath : Option String
  thumbnailPath : Option String
  filePaths : Option (List String)
  colorValue : Option String
  sourceApplication : Option String
  fileSize : Option Int
  fileCount : Option Int
  fileTypes : Option (List String)
  isAllImages : Bool
  thumbnails : Option String
deriving DecidableEq

/-- Body of ClipboardItem._generateContentHash as a function of the fields it
reads: switch on `type`, derive the canonical content string, SHA-256 it. -/
def genHashFields (type : String) (plainText : Option String) (imageData : Option (List Nat))
    (filePaths : Option (List String)) (colorValue : Option String) : String :=
  let content :=
    if type = "text" ∨ type = "richText" then plainText.getD ""
    else if type = "image" then
      match imageData with
      | some bytes => ⟨(b64 bytes).take 1000⟩
      | none => ""
    else if type = "file" ∨ type = "multi-file" then
      match filePaths with
      | some paths => jsonStrArr paths
      | none => ""
    else if type = "color" then colorValue.getD ""
    else ""
  sha256str content

/-- `_generateContentHash` invoked on a fully-assigned item. -/
def itemHash (it : ClipboardItem) : String :=
  genHashFields it.type it.plainText it.imageData it.filePaths it.colorValue

/-- The constructor's named arguments, with their JS defaults. -/
structure CtorArgs where
  id : Option String := none
  type : String
  timestamp : Option Int := none
  isPinned : Bool := false
  isDeleted : Bool := false
  contentHash : Option String := none
  plainText : Option String := none
  richText : Option String := none
  imageData : Option (List Nat) := none
  imageThumbnail : Option (List Nat) := none
  imagePath : Option String := none
  thumbnailPath : Option String := none
  filePaths : Option (List String) := none
  colorValue : Option String := none
  sourceApplication : Option String := none
  fileSize : Option Int := none
  fileCount : Option Int := none
  fileTypes : Option (List String) := none
  isAllImages : Bool := false
  thumbnails : Option String := none

/-- The ClipboardItem constructor. `freshId` stands for `crypto.randomUUID()` and
`now` for `Date.now()`, the two ambient effects. JS falsiness: an absent or empty
`id`/`contentHash` and an absent or zero `timestamp` trigger the defaults. When
the hash is regenerated, the constructor calls `_generateContentHash` BEFORE the
payload fields are assigned to `this`, so every payload read inside it yields
`undefined` and the canonical content is the empty string. -/
def mkItem (freshId : String) (now : Int) (a : CtorArgs) : ClipboardItem :=
  { id := match a.id with
      | some s => if s = "" then freshId else s
      | none => freshId
    type := a.type
    timestamp := match a.timestamp with
      | some t => if t = 0 then now else t
      | none => now
    isPinned := a.isPinned
    isDeleted := a.isDeleted
    contentHash := match a.contentHash with
      | some h => if h = "" then genHashFields a.type none none none none else h
      | none => genHashFields a.type none none none none
    plainText := a.plainText
    richText := a.richText
    imageData := a.imageData
    imageThumbnail := a.imageThumbnail
    imagePath := a.imagePath
    thumbnailPath := a.thumbnailPath
    filePaths := a.filePaths
    colorValue := a.colorValue
    sourceApplication := a.sourceApplication
    fileSize := a.fileSize
    fileCount := a.fileCount
    fileTypes := a.fileTypes
    isAllImages := a.isAllImages
    thumbnails := a.thumbnails }

/-- The plain JS object produced by `toDatabase()` (and consumed by
`fromDatabase` and by `DatabaseManager.insert`). -/
structure DBObj where
  id : String
  type : String
  timestamp : Int
  isPinned : Bool
  isDeleted : Bool
  contentHash : String
  plainText : Option String
  richText : Option String
  imageData : Option (List Nat)
  thumbnailData : Option (List Nat)
  imagePath : Option String
  thumbnailPath : Option String
  filePaths : Option (List String)
  colorValue : Option String
  sourceApplication : Option String
  fileSize : Option Int
  fileCount : Option Int
  fileTypes : Option String
  isAllImages : Int
  thumbnails : Option String
deriving DecidableEq

/-- ClipboardItem.toDatabase. -/
def toDatabase (it : ClipboardItem) : DBObj :=
  { id := it.id
    type := it.type
    timestamp := it.timestamp
    isPinned := it.isPinned
    isDeleted := it.isDeleted
    contentHash := it.contentHash
    plainText := it.plainText
    richText := it.richText
    imageData := it.imageData
    thumbnailData := it.imageThumbnail
    imagePath := it.imagePath
    thumbnailPath := it.thumbnailPath
    filePaths := it.filePaths
    colorValue := it.colorValue
    sourceApplication := it.sourceApplication
    fileSize := it.fileSize
    fileCount := it.fileCount
    fileTypes := it.fileTypes.map jsonStrArr
    isAllImages := if it.isAllImages then 1 else 0
    thumbnails := it.thumbnails }

/-- ClipboardItem.fromDatabase. `JSON.parse` of a malformed `fileTypes` throws,
modelled as `Except.error`. -/
def fromDatabase (freshId : String) (now : Int) (o : DBObj) : Except String ClipboardItem :=
  let ft : Except String (Option (List String)) :=
    match o.fileTypes with
    | none => Except.ok none
    | some s =>
      if s = "" then Except.ok none
      else
        match jsonParseStrArr s with
        | some l => Except.ok (some l)
        | none => Except.error "SyntaxError"
  ft.map (fun ftv => mkItem freshId now
    { id := some o.id
      type := o.type
      timestamp := some o.timestamp
      isPinned := o.isPinned
      isDeleted := o.isDeleted
      contentHash := some o.contentHash
      plainText := o.plainText
      richText := o.richText
      imageData := o.imageData
      imageThumbnail := o.thumbnailData
      imagePath := o.imagePath
      thumbnailPath := o.thumbnailPath
      filePaths := o.filePaths
      colorValue := o.colorValue
      sourceApplication := o.sourceApplication
      fileSize := o.fileSize
      fileCount := o.fileCount
      fileTypes := ftv
      isAllImages := o.isAllImages == 1
      thumbnails := o.thumbnails })

/-! ## History Store (database.js) -/

/-- A JS value as passed in an update object. -/
inductive JsVal where
  | vNull : JsVal
  | vBool : Bool → JsVal
  | vInt : Int → JsVal
  | vStr : String → JsVal
  | vArr : List String → JsVal
  | vBytes : List Nat → JsVal
deriving DecidableEq

/-- A dynamically-typed SQLite cell value. -/
inductive SVal where
  | vNull : SVal
  | vInt : Int → SVal
  | vText : String → SVal
  | vBlob : List Nat → SVal
deriving DecidableEq

/-- A row of the `clipboard_items` table. Columns that are NOT NULL and never
updatable keep their natural types; the eight whitelist-updatable columns and
the remaining nullable columns hold dynamic `SVal`s. -/
structure Row where
  id : String
  type : String
  timestamp : Int
  is_pinned : SVal
  is_deleted : SVal
  content_hash : String
  plain_text : SVal
  rich_text : SVal
  image_data : SVal
  thumbnail_data : SVal
  image_path : Option String
  thumbnail_path : Option String
  file_paths : SVal
  color_value : SVal
  source_application : Option String
  file_size : Option Int
  file_count : Option Int
  file_types : Option String
  is_all_images : Int
deriving DecidableEq

/-- The table contents in rowid (insertion) order. -/
abbrev DBState := List Row

/-- SQLite cell for an optional string. -/
def sOfStr : Option String → SVal
  | some s => SVal.vText s
  | none => SVal.vNull

/-- SQLite cell for an optional blob. -/
def sOfBytes : Option (List Nat) → SVal
  | some b => SVal.vBlob b
  | none => SVal.vNull

/-- DatabaseManager.insert: append the row; a duplicate primary key makes the
prepared statement throw, modelled as `Except.error`. -/
def dbInsert (o : DBObj) (st : DBState) : Except String DBState :=
  if (st.map Row.id).contains o.id then Except.error "UNIQUE constraint failed"
  else Except.ok (st ++ [{
    id := o.id
    type := o.type
    timestamp := o.timestamp
    is_pinned := SVal.vInt (if o.isPinned then 1 else 0)
    is_deleted := SVal.vInt (if o.isDeleted then 1 else 0)
    content_hash := o.contentHash
    plain_text := sOfStr o.plainText
    rich_text := sOfStr o.richText
    image_data := sOfBytes o.imageData
    thumbnail_data := sOfBytes o.thumbnailData
    image_path := o.imagePath
    thumbnail_path := o.thumbnailPath
    file_paths := sOfStr (o.filePaths.map jsonStrArr)
    color_value := sOfStr o.colorValue
    source_application := o.sourceApplication
    file_size := o.fileSize
    file_count := o.fileCount
    file_types := o.fileTypes
    is_all_images := o.isAllImages }])

/-- Does a row match the optional pinned/deleted filters (`is_pinned = ?`,
`is_deleted = ?` with a 1/0 parameter)? -/
def rowMatches (isPinned isDeleted : Option Bool) (r : Row) : Bool :=
  (match isPinned with
   | some b => r.is_pinned == SVal.vInt (if b then 1 else 0)
   | none => true) &&
  (match isDeleted with
   | some b => r.is_deleted == SVal.vInt (if b then 1 else 0)
   | none => true)

/-- Insert a row into a timestamp-sorted list (ascending if `asc`). -/
def insertTs (asc : Bool) (r : Row) : List Row → List Row
  | [] => [r]
  | x :: xs =>
    if (if asc then r.timestamp ≤ x.timestamp else x.timestamp ≤ r.timestamp)
    then r :: x :: xs
    else x :: insertTs asc r xs

/-- `ORDER BY timestamp ASC|DESC`. -/
def sortTs (asc : Bool) : List Row → List Row
  | [] => []
  | x :: xs => insertTs asc x (sortTs asc xs)

/-- DatabaseManager.query: filter by flags, order by timestamp, then
`LIMIT ? OFFSET ?`. -/
def dbQuery (isPinned isDeleted : Option Bool) (limit offset : Nat) (asc : Bool)
    (st : DBState) : List Row :=
  (((sortTs asc (st.filter (rowMatches isPinned isDeleted))).drop offset).take limit)

/-- DatabaseManager.count. -/
def dbCount (isPinned isDeleted : Option Bool) (st : DBState) : Nat :=
  (st.filter (rowMatches isPinned isDeleted)).length

/-- DatabaseManager.getById (`WHERE id = ?`, first match). -/
def dbGetById (id : String) (st : DBState) : Option Row :=
  st.find? (fun r => r.id == id)

/-- DatabaseManager.existsByHash: `WHERE content_hash = ? AND is_deleted = 0 LIMIT 1`. -/
def existsByHash (hash : String) (st : DBState) : Option String :=
  (st.find? (fun r => r.content_hash == hash && r.is_deleted == SVal.vInt 0)).map Row.id

/-- DatabaseManager.delete: `DELETE FROM clipboard_items WHERE id IN (...)`;
returns the number of removed rows. -/
def dbDelete (ids : List String) (st : DBState) : Nat × DBState :=
  ((st.filter (fun r => (ids.contains r.id))).length,
   st.filter (fun r => !(ids.contains r.id)))

/-- DatabaseManager.camelToSnake. -/
def camelToSnake (s : String) : String :=
  ⟨s.data.flatMap (fun c => if c.isUpper then ['_', c.toLower] else [c])⟩

/-- The update whitelist (`allowedFields` in DatabaseManager.update). -/
def allowedFields : List String :=
  ["is_pinned", "is_deleted", "plain_text", "rich_text",
   "image_data", "thumbnail_data", "file_paths", "color_value"]

/-- Value conversion in DatabaseManager.update: booleans become 1/0, arrays are
JSON-stringified, everything else is bound as-is. -/
def convertVal : JsVal → SVal
  | JsVal.vNull => SVal.vNull
  | JsVal.vBool b => SVal.vInt (if b then 1 else 0)
  | JsVal.vInt n => SVal.vInt n
  | JsVal.vStr s => SVal.vText s
  | JsVal.vArr l => SVal.vText (jsonStrArr l)
  | JsVal.vBytes b => SVal.vBlob b

/-- The `fields`/`values` lists built by DatabaseManager.update:
keys are snake-cased, non-whitelisted keys are skipped. -/
def buildFields (updates : List (String × JsVal)) : List (String × SVal) :=
  updates.filterMap (fun kv =>
    let dbKey := camelToSnake kv.1
    if dbKey ∈ allowedFields then some (dbKey, convertVal kv.2) else none)

/-- Apply one `column = ?` assignment to a row. -/
def setCol (r : Row) (kv : String × SVal) : Row :=
  if kv.1 = "is_pinned" then { r with is_pinned := kv.2 }
  else if kv.1 = "is_deleted" then { r with is_deleted := kv.2 }
  else if kv.1 = "plain_text" then { r with plain_text := kv.2 }
  else if kv.1 = "rich_text" then { r with rich_text := kv.2 }
  else if kv.1 = "image_data" then { r with image_data := kv.2 }
  else if kv.1 = "thumbnail_data" then { r with thumbnail_data := kv.2 }
  else if kv.1 = "file_paths" then { r with file_paths := kv.2 }
  else if kv.1 = "color_value" then { r with color_value := kv.2 }
  else r

/-- DatabaseManager.update: build whitelisted assignments; if none remain,
return false without touching the store; otherwise run
`UPDATE clipboard_items SET ... WHERE id = ?` and report `changes > 0`. -/
def dbUpdate (st : DBState) (id : String) (updates : List (String × JsVal)) :
    Bool × DBState :=
  let fields := buildFields updates
  if fields.length = 0 then (false, st)
  else
    (((st.filter (fun r => r.id == id)).length != 0),
     st.map (fun r => if r.id == id then fields.foldl setCol r else r))

/-! ## History Coordinator (historyManager.js) -/

/-- Ambient configuration of HistoryManager: the storage limits and the current
wall-clock time (`Date.now()`). -/
structure Cfg where
  maxItems : Nat
  retentionDays : Int
  now : Int

/-- First block of HistoryManager.enforceStorageLimits: if the live count
exceeds `maxItems`, delete the oldest non-pinned live rows (ascending
timestamp, `LIMIT excessCount`). -/
def countPass (cfg : Cfg) (st : DBState) : DBState :=
  let totalCount := dbCount none (some false) st
  if cfg.maxItems < totalCount then
    let excessCount := totalCount - cfg.maxItems
    let oldestItems := dbQuery (some false) (some false) excessCount 0 true st
    let idsToDelete := oldestItems.map Row.id
    if idsToDelete.length ≠ 0 then (dbDelete idsToDelete st).2 else st
  else st

/-- Second block of HistoryManager.enforceStorageLimits: if a retention window
is configured, delete every non-pinned live row older than the cutoff among
the (at most 10000) rows the retention query returns. -/
def retentionPass (cfg : Cfg) (st : DBState) : DBState :=
  if 0 < cfg.retentionDays then
    let cutoffTimestamp := cfg.now - cfg.retentionDays * 86400000
    let expiredItems := (dbQuery (some false) (some false) 10000 0 true st).filter
      (fun r => r.timestamp < cutoffTimestamp)
    let idsToDelete := expiredItems.map Row.id
    if idsToDelete.length ≠ 0 then (dbDelete idsToDelete st).2 else st
  else st

/-- HistoryManager.enforceStorageLimits: count-based eviction, then
retention-based removal. -/
def enforceStorageLimits (cfg : Cfg) (st : DBState) : DBState :=
  retentionPass cfg (countPass cfg st)

/-- HistoryManager.addItem: dedup by content hash. On a hash hit, update only
the existing row's timestamp (through the whitelist-based update) and return
the existing id; otherwise insert and enforce storage limits. A throwing insert
propagates. -/
def addItem (cfg : Cfg) (o : DBObj) (st : DBState) :
    Except String (Option String × DBState) :=
  match existsByHash o.contentHash st with
  | some existingId =>
    let u := dbUpdate st existingId [("timestamp", JsVal.vInt o.timestamp)]
    Except.ok (some existingId, u.2)
  | none =>
    match dbInsert o st with
    | Except.error e => Except.error e
    | Except.ok st1 => Except.ok (some o.id, enforceStorageLimits cfg st1)

/-- HistoryManager.pinItem. -/
def pinItem (id : String) (st : DBState) : Bool × DBState :=
  dbUpdate st id [("isPinned", JsVal.vBool true)]

/-- HistoryManager.unpinItem. -/
def unpinItem (id : String) (st : DBState) : Bool × DBState :=
  dbUpdate st id [("isPinned", JsVal.vBool false)]

/-- HistoryManager.moveToTrash: soft-delete every id in turn, counting successes. -/
def moveToTrash (ids : List String) (st : DBState) : Nat × DBState :=
  ids.foldl (fun acc id =>
    let u := dbUpdate acc.2 id [("isDeleted", JsVal.vBool true)]
    (acc.1 + (if u.1 then 1 else 0), u.2)) (0, st)

/-- HistoryManager.restoreFromTrash. -/
def restoreFromTrash (ids : List String) (st : DBState) : Nat × DBState :=
  ids.foldl (fun acc id =>
    let u := dbUpdate acc.2 id [("isDeleted", JsVal.vBool false)]
    (acc.1 + (if u.1 then 1 else 0), u.2)) (0, st)

/-- HistoryManager.deleteItems: physical removal via DatabaseManager.delete.
It performs no Blob Store cleanup. -/
def deleteItems (ids : List String) (st : DBState) : Nat × DBState :=
  dbDelete ids st

/-- HistoryManager.emptyTrash: query up to 10000 trashed rows and delete them. -/
def emptyTrash (st : DBState) : Nat × DBState :=
  let trashedItems := dbQuery none (some true) 10000 0 false st
  let ids := trashedItems.map Row.id
  if ids.length ≠ 0 then dbDelete ids st else (0, st)

/-- HistoryManager.clearAllHistory: query up to 10000 non-pinned live rows and
delete them. -/
def clearAllHistory (st : DBState) : Nat × DBState :=
  let items := dbQuery (some false) (some false) 10000 0 false st
  let ids := items.map Row.id
  if ids.length ≠ 0 then dbDelete ids st else (0, st)

/-! ## Blob Store (imageStorageManager.js) -/

/-- The filesystem, as an association of paths to file contents. -/
abbrev FS := List (String × List Nat)

/-- Write (create or overwrite) a file. -/
def fsWrite (fs : FS) (p : String) (contents : List Nat) : FS :=
  (p, contents) :: fs.filter (fun e => !(e.1 == p))

/-- Read a file if it exists. -/
def fsRead (fs : FS) (p : String) : Option (List Nat) :=
  (fs.find? (fun e => e.1 == p)).map Prod.snd

/-- Unlink a file; a missing file is a no-op (`Promise.allSettled`). -/
def fsRemove (fs : FS) (p : String) : FS :=
  fs.filter (fun e => !(e.1 == p))

/-- ImageStorageManager instance state: the configured base path. -/
structure ISM where
  basePath : String

/-- `this.imagesPath`. -/
def imagesPath (ism : ISM) : String := pathJoin ism.basePath "images"

/-- `this.thumbnailsPath`. -/
def thumbnailsPath (ism : ISM) : String := pathJoin ism.basePath "thumbnails"

/-- The id validation guard shared by deleteImage / readImage / readThumbnail:
rejects empty ids and ids containing `..`, `/` or `\`. -/
def validId (id : String) : Bool :=
  !(id == "" || strIncludes id ".." || strIncludes id "/" || strIncludes id "\\")

/-- The result object of saveImage. -/
structure SaveResult where
  id : String
  imagePath : String
  thumbnailPath : String
  fileSize : Nat
deriving DecidableEq

/-- ImageStorageManager.saveImage: NO id validation; writes the re-encoded
full-resolution image to `<imagesPath>/<id>.webp` and the thumbnail to
`<thumbnailsPath>/<id>.jpg`. The lossy sharp re-encodings are abstract
parameters `encWebp` and `encJpeg`. -/
def saveImage (encWebp encJpeg : List Nat → List Nat) (ism : ISM)
    (imageBuffer : List Nat) (idArg : Option String) (freshId : String)
    (fs : FS) : SaveResult × FS :=
  let imageId := match idArg with
    | some s => if s = "" then freshId else s
    | none => freshId
  let imagePath := pathJoin (imagesPath ism) (imageId ++ ".webp")
  let fs1 := fsWrite fs imagePath (encWebp imageBuffer)
  let thumbnailPath := pathJoin (thumbnailsPath ism) (imageId ++ ".jpg")
  let fs2 := fsWrite fs1 thumbnailPath (encJpeg imageBuffer)
  ({ id := imageId, imagePath := imagePath, thumbnailPath := thumbnailPath,
     fileSize := imageBuffer.length }, fs2)

/-- ImageStorageManager.getImagePath: note the `.png` extension. -/
def getImagePath (ism : ISM) (id : String) : String :=
  pathJoin (imagesPath ism) (id ++ ".png")

/-- ImageStorageManager.getThumbnailPath. -/
def getThumbnailPath (ism : ISM) (id : String) : String :=
  pathJoin (thumbnailsPath ism) (id ++ ".jpg")

/-- ImageStorageManager.deleteImage: validates the id (throwing, modelled as
`Except.error`, leaves the filesystem untouched), then unlinks
`<imagesPath>/<id>.png` and `<thumbnailsPath>/<id>.jpg`. -/
def deleteImage (ism : ISM) (id : String) (fs : FS) : Except String Bool × FS :=
  if !(validId id) then (Except.error "Invalid image ID", fs)
  else
    let imagePath := pathJoin (imagesPath ism) (id ++ ".png")
    let thumbnailPath := pathJoin (thumbnailsPath ism) (id ++ ".jpg")
    (Except.ok true, fsRemove (fsRemove fs imagePath) thumbnailPath)

/-- ImageStorageManager.imageExists: checks `<imagesPath>/<id>.png`. -/
def imageExists (ism : ISM) (id : String) (fs : FS) : Bool :=
  (fsRead fs (pathJoin (imagesPath ism) (id ++ ".png"))).isSome

/-- ImageStorageManager.readImage: validates the id, then reads
`getImagePath(id)` (the `.png` path); a read failure yields null. -/
def readImage (ism : ISM) (id : String) (fs : FS) :
    Except String (Option (List Nat)) :=
  if !(validId id) then Except.error "Invalid image ID"
  else Except.ok (fsRead fs (getImagePath ism id))

/-- ImageStorageManager.readThumbnail. -/
def readThumbnail (ism : ISM) (id : String) (fs : FS) :
    Except String (Option (List Nat)) :=
  if !(validId id) then Except.error "Invalid image ID"
  else Except.ok (fsRead fs (getThumbnailPath ism id))

/-- The coordinator's permanent delete as it acts on the combined world
(history rows + blob files): HistoryManager.deleteItems calls only
DatabaseManager.delete; no component invokes ImageStorageManager.deleteImage. -/
def deleteItemsWorld (ids : List String) (st : DBState) (fs : FS) :
    Nat × DBState × FS :=
  ((dbDelete ids st).1, (dbDelete ids st).2, fs)

/-! ## Concrete fixtures -/

/-- A text DBObj (as produced by `toDatabase` on a captured text item). -/
def mkTextObj (id : String) (ts : Int) (hash : String) (txt : String) : DBObj :=
  { id := id, type := "text", timestamp := ts, isPinned := false, isDeleted := false,
    contentHash := hash, plainText := some txt, richText := none, imageData := none,
    thumbnailData := none, imagePath := none, thumbnailPath := none, filePaths := none,
    colorValue := none, sourceApplication := none, fileSize := none, fileCount := none,
    fileTypes := none, isAllImages := 0, thumbnails := none }

/-- The coordinator configuration used in the concrete scenarios. -/
def cfg0 : Cfg := { maxItems := 1000, retentionDays := 30, now := 200 }

/-- Resulting store of a coordinator call, with a fallback for the error case. -/
def stateOf (e : Except String (Option String × DBState)) (fallback : DBState) : DBState :=
  match e with
  | Except.ok p => p.2
  | Except.error _ => fallback

/-- Store contents after capturing "Hello" (hash `h1`) at time 100. -/
def c1st1 : DBState := stateOf (addItem cfg0 (mkTextObj "a" 100 "h1" "Hello") []) []

/-- C1 theorem support: the second capture of identical content at time 150. -/
def c1obj2 : DBObj := mkTextObj "b" 150 "h1" "Hello"

/-- C1: capturing identical content a second time inserts no new row and
returns the existing id, BUT the existing row's timestamp is NOT updated to
the new capture time: `addItem` passes `{ timestamp }` to the whitelist-based
update, which silently drops it, so the row keeps timestamp 100 although the
second capture happened at 150. -/
theorem c1_dedup_keeps_stale_timestamp :
    addItem cfg0 c1obj2 c1st1 = Except.ok (some "a", c1st1) ∧
    c1st1.map Row.timestamp = [100] ∧
    c1obj2.timestamp = 150 ∧
    c1st1.map Row.content_hash = ["h1"] := by decide

/-- Filesystem fixture for the Blob Store scenarios. -/
def fs0 : FS := [("store/images/a.png", [1])]

/-- The Blob Store instance used in the concrete scenarios. -/
def ism0 : ISM := { basePath := "store" }

/-- C2: deleteImage, readImage and readThumbnail reject ids containing `..` or
a path separator without touching the filesystem, but saveImage performs NO id
validation: saving under the id `../evil` writes the full image to
`store/evil.webp` and the thumbnail to `store/evil.jpg`, both OUTSIDE the two
storage directories. -/
theorem c2_save_image_misses_traversal_check :
    deleteImage ism0 "../x" fs0 = (Except.error "Invalid image ID", fs0) ∧
    readImage ism0 "../x" fs0 = Except.error "Invalid image ID" ∧
    readThumbnail ism0 "a/b" fs0 = Except.error "Invalid image ID" ∧
    readImage ism0 "a\\b" fs0 = Except.error "Invalid image ID" ∧
    saveImage (fun b => b) (fun b => b) ism0 [7, 8] (some "../evil") "f" fs0 =
      ({ id := "../evil", imagePath := "store/evil.webp",
         thumbnailPath := "store/evil.jpg", fileSize := 2 },
       [("store/evil.jpg", [7, 8]), ("store/evil.webp", [7, 8]),
        ("store/images/a.png", [1])]) ∧
    List.isPrefixOf "store/images".data "store/evil.webp".data = false := by decide

/-- An image-backed row whose blob files exist on disk. -/
def c4row : Row :=
  { id := "img1", type := "image", timestamp := 100,
    is_pinned := SVal.vInt 0, is_deleted := SVal.vInt 0, content_hash := "h4",
    plain_text := SVal.vNull, rich_text := SVal.vNull, image_data := SVal.vNull,
    thumbnail_data := SVal.vNull,
    image_path := some "store/images/img1.webp",
    thumbnail_path := some "store/thumbnails/img1.jpg",
    file_paths := SVal.vNull, color_value := SVal.vNull,
    source_application := none, file_size := some 2, file_count := some 1,
    file_types := none, is_all_images := 0 }

/-- The blob files owned by `c4row`. -/
def c4fs : FS := [("store/images/img1.webp", [9]), ("store/thumbnails/img1.jpg", [8])]

/-- C4: deleteItems physically removes the image-backed row from the History
Store, but performs no Blob Store cleanup: the row's full-image and thumbnail
files are still on disk afterwards (orphaned). -/
theorem c4_delete_items_orphans_blob_files :
    deleteItemsWorld ["img1"] [c4row] c4fs = (1, [], c4fs) ∧
    c4row.image_path = some "store/images/img1.webp" ∧
    fsRead c4fs "store/images/img1.webp" = some [9] ∧
    fsRead c4fs "store/thumbnails/img1.jpg" = some [8] := by decide

/-- A plain text row for the update-whitelist scenarios. -/
def c3row : Row :=
  { id := "r1", type := "image", timestamp := 100,
    is_pinned := SVal.vInt 0, is_deleted := SVal.vInt 0, content_hash := "h3",
    plain_text := SVal.vNull, rich_text := SVal.vNull, image_data := SVal.vBlob [5],
    thumbnail_data := SVal.vNull, image_path := none, thumbnail_path := none,
    file_paths := SVal.vNull, color_value := SVal.vNull,
    source_application := none, file_size := some 1, file_count := some 1,
    file_types := none, is_all_images := 0 }

/-- C3 counterexample: an update supplying an `imagePath` (or `thumbnailPath`)
value does NOT change that field of the row — the whitelist contains
`image_data`/`thumbnail_data` but not `image_path`/`thumbnail_path`, so the
update is dropped entirely and reports false even though the row exists. -/
theorem c3_image_path_not_updatable :
    dbUpdate [c3row] "r1" [("imagePath", JsVal.vStr "store/images/r1.webp")] =
      (false, [c3row]) ∧
    dbUpdate [c3row] "r1" [("thumbnailPath", JsVal.vStr "store/thumbnails/r1.jpg")] =
      (false, [c3row]) ∧
    dbUpdate [c3row] "r1" [("image_path", JsVal.vStr "store/images/r1.webp")] =
      (false, [c3row]) := by decide

/-! ## The at-most-one-live-item-per-hash invariant (C5) -/

/-- A live (not soft-deleted) row. -/
def liveRow (r : Row) : Prop := r.is_deleted = SVal.vInt 0

instance (r : Row) : Decidable (liveRow r) := by unfold liveRow; infer_instance

/-- At most one live row exists per content hash. -/
def atMostOneLivePerHash (st : DBState) : Prop :=
  st.Pairwise (fun a b => ¬(liveRow a ∧ liveRow b ∧ a.content_hash = b.content_hash))

instance (st : DBState) : Decidable (atMostOneLivePerHash st) := by
  unfold atMostOneLivePerHash; exact List.instDecidablePairwise st

/-- Reachable-state fixture for C5: capture content with hash `h`. -/
def c5st1 : DBState := stateOf (addItem cfg0 (mkTextObj "a" 100 "h" "X") []) []

/-- ... then trash it. -/
def c5st2 : DBState := (moveToTrash ["a"] c5st1).2

/-- ... then capture the same content again (its hash no longer blocks
recapture, since existsByHash ignores deleted rows). -/
def c5st3 : DBState := stateOf (addItem cfg0 (mkTextObj "b" 120 "h" "X") c5st2) c5st2

/-- ... then restore the first item from trash. -/
def c5st4 : DBState := (restoreFromTrash ["a"] c5st3).2

/-- C5 counterexample: after the coordinator operation sequence
addItem; moveToTrash; addItem (same content); restoreFromTrash, TWO live rows
share the content hash `h`, so the invariant does not hold at every reachable
state. -/
theorem c5_restore_breaks_hash_uniqueness :
    ¬ atMostOneLivePerHash c5st4 ∧
    (c5st4.filter (fun r => r.is_deleted == SVal.vInt 0 && r.content_hash == "h")).length = 2 := by
  decide

/-! ## Update and invariant lemmas -/

theorem dbUpdate_snd (st : DBState) (id : String) (us : List (String × JsVal)) :
    (dbUpdate st id us).2 =
      st.map (fun r => if r.id == id then (buildFields us).foldl setCol r else r) := by
  unfold dbUpdate
  by_cases h : (buildFields us).length = 0
  · rw [List.length_eq_zero] at h
    simp [h]
  · simp [h]

theorem buildFields_single (k : String) (v : JsVal) :
    buildFields [(k, v)] =
      (if camelToSnake k ∈ allowedFields then
        [(camelToSnake k, convertVal v)] else []) := by
  unfold buildFields
  rw [List.filterMap_cons, List.filterMap_nil]
  by_cases h : camelToSnake k ∈ allowedFields
  · simp [h]
  · simp [h]

theorem buildFields_timestamp (v : JsVal) : buildFields [("timestamp", v)] = [] := by
  rw [buildFields_single]
  have h : ¬ (camelToSnake "timestamp" ∈ allowedFields) := by decide
  simp [h]

theorem dbUpdate_timestamp_noop (st : DBState) (id : String) (v : JsVal) :
    dbUpdate st id [("timestamp", JsVal.vInt 0)] = (false, st) ∧
    dbUpdate st id [("timestamp", v)] = (false, st) := by
  constructor <;> (unfold dbUpdate; rw [buildFields_timestamp]; simp)

theorem buildFields_isDeleted (v : Bool) :
    buildFields [("isDeleted", JsVal.vBool v)] =
      [("is_deleted", SVal.vInt (if v then 1 else 0))] := by
  cases v <;> decide

theorem buildFields_isPinned (v : Bool) :
    buildFields [("isPinned", JsVal.vBool v)] =
      [("is_pinned", SVal.vInt (if v then 1 else 0))] := by
  cases v <;> decide

theorem setCol_is_deleted (r : Row) (v : SVal) :
    setCol r ("is_deleted", v) = { r with is_deleted := v } := by
  simp [setCol]

theorem setCol_is_pinned (r : Row) (v : SVal) :
    setCol r ("is_pinned", v) = { r with is_pinned := v } := by
  simp [setCol]

theorem inv_filter (p : Row → Bool) (st : DBState) :
    atMostOneLivePerHash st → atMostOneLivePerHash (st.filter p) :=
  fun h => List.Pairwise.sublist (List.filter_sublist st) h

theorem inv_dbDelete (ids : List String) (st : DBState) :
    atMostOneLivePerHash st → atMostOneLivePerHash (dbDelete ids st).2 :=
  inv_filter _ st

theorem inv_map (f : Row → Row) (hl : ∀ r, liveRow (f r) → liveRow r)
    (hh : ∀ r, (f r).content_hash = r.content_hash) (st : DBState) :
    atMostOneLivePerHash st → atMostOneLivePerHash (st.map f) := by
  intro h
  rw [atMostOneLivePerHash, List.pairwise_map]
  refine h.imp ?_
  intro a b hab hc
  exact hab ⟨hl _ hc.1, hl _ hc.2.1, by rw [← hh a, ← hh b]; exact hc.2.2⟩

theorem inv_trash_step (id : String) (st : DBState) :
    atMostOneLivePerHash st →
    atMostOneLivePerHash (dbUpdate st id [("isDeleted", JsVal.vBool true)]).2 := by
  intro h
  rw [dbUpdate_snd, buildFields_isDeleted]
  refine inv_map _ ?_ ?_ st h
  · intro r hr
    by_cases hid : (r.id == id) = true
    · simp only [hid, if_true, List.foldl_cons, List.foldl_nil, setCol_is_deleted] at hr
      unfold liveRow at hr
      simp at hr
    · simp only [hid] at hr
      simpa using hr
  · intro r
    by_cases hid : (r.id == id) = true
    · simp [hid, setCol_is_deleted]
    · simp [hid]

theorem inv_pin_step (b : Bool) (id : String) (st : DBState) :
    atMostOneLivePerHash st →
    atMostOneLivePerHash (dbUpdate st id [("isPinned", JsVal.vBool b)]).2 := by
  intro h
  rw [dbUpdate_snd, buildFields_isPinned]
  refine inv_map _ ?_ ?_ st h
  · intro r hr
    by_cases hid : (r.id == id) = true
    · simp only [hid, if_true, List.foldl_cons, List.foldl_nil, setCol_is_pinned] at hr
      unfold liveRow at hr ⊢
      simpa using hr
    · simp only [hid] at hr
      simpa using hr
  · intro r
    by_cases hid : (r.id == id) = true
    · simp [hid, setCol_is_pinned]
    · simp [hid]

theorem inv_countPass (cfg : Cfg) (st : DBState) :
    atMostOneLivePerHash st → atMostOneLivePerHash (countPass cfg st) := by
  intro h
  simp only [countPass]
  repeat' split
  all_goals first | exact h | exact inv_dbDelete _ _ h

theorem inv_retentionPass (cfg : Cfg) (st : DBState) :
    atMostOneLivePerHash st → atMostOneLivePerHash (retentionPass cfg st) := by
  intro h
  simp only [retentionPass]
  repeat' split
  all_goals first | exact h | exact inv_dbDelete _ _ h

theorem inv_enforce (cfg : Cfg) (st : DBState) :
    atMostOneLivePerHash st → atMostOneLivePerHash (enforceStorageLimits cfg st) := by
  intro h
  exact inv_retentionPass cfg _ (inv_countPass cfg st h)

theorem inv_moveToTrash (ids : List String) (st : DBState) :
    atMostOneLivePerHash st → atMostOneLivePerHash (moveToTrash ids st).2 := by
  unfold moveToTrash
  suffices hgen : ∀ (acc : Nat × DBState), atMostOneLivePerHash acc.2 →
      atMostOneLivePerHash ((ids.foldl (fun acc id =>
        let u := dbUpdate acc.2 id [("isDeleted", JsVal.vBool true)]
        (acc.1 + (if u.1 then 1 else 0), u.2)) acc)).2 by
    intro h; exact hgen (0, st) h
  induction ids with
  | nil => intro acc h; exact h
  | cons x xs ih =>
    intro acc h
    exact ih _ (inv_trash_step x acc.2 h)

theorem existsByHash_none (h : String) (st : DBState) :
    existsByHash h st = none →
    ∀ r ∈ st, ¬(liveRow r ∧ r.content_hash = h) := by
  unfold existsByHash
  intro he r hr hc
  cases hf : st.find? (fun r => r.content_hash == h && r.is_deleted == SVal.vInt 0) with
  | some r2 => rw [hf] at he; simp at he
  | none =>
    have := List.find?_eq_none.mp hf r hr
    simp only [Bool.and_eq_true, beq_iff_eq] at this
    exact this ⟨hc.2, hc.1⟩

theorem inv_addItem (cfg : Cfg) (o : DBObj) (st : DBState) :
    atMostOneLivePerHash st → atMostOneLivePerHash (stateOf (addItem cfg o st) st) := by
  intro h
  unfold addItem
  cases hex : existsByHash o.contentHash st with
  | some eid =>
    have hnoop := (dbUpdate_timestamp_noop st eid (JsVal.vInt o.timestamp)).2
    simp only [stateOf, hnoop]
    exact h
  | none =>
    unfold dbInsert
    by_cases hdup : ((st.map Row.id).contains o.id) = true
    · simp only [stateOf, hdup, if_true]
      exact h
    · simp only [stateOf, hdup, if_false, Bool.false_eq_true]
      apply inv_enforce
      rw [atMostOneLivePerHash, List.pairwise_append]
      refine ⟨h, by simp, ?_⟩
      intro a ha b hb hc
      have hnone := existsByHash_none o.contentHash st hex a ha
      apply hnone
      refine ⟨hc.1, ?_⟩
      have hbh : b.content_hash = o.contentHash := by
        simp only [List.mem_singleton] at hb
        rw [hb]
      rw [← hbh]; exact hc.2.2

theorem inv_guarded_delete (ids : List String) (st : DBState) :
    atMostOneLivePerHash st →
    atMostOneLivePerHash (if ids.length ≠ 0 then dbDelete ids st else (0, st)).2 := by
  intro h
  split
  · exact inv_dbDelete _ _ h
  · exact h

/-- C5 amended: existsByHash only ever returns the id of a live row (a deleted
item's hash does not block recapture), and the at-most-one-live-item-per-hash
invariant is preserved by every Coordinator operation EXCEPT restoreFromTrash:
addItem (upsert-by-hash), pinItem, unpinItem, moveToTrash, deleteItems,
emptyTrash and clearAllHistory. restoreFromTrash can violate it (see the
counterexample) when the same content was recaptured while the original was
in the trash. -/
theorem c5_live_hash_uniqueness_amended :
    (∀ (h : String) (st : DBState) (id : String),
        existsByHash h st = some id →
        ∃ r, r ∈ st ∧ r.id = id ∧ r.content_hash = h ∧ liveRow r) ∧
    (∀ (cfg : Cfg) (o : DBObj) (st : DBState), atMostOneLivePerHash st →
        atMostOneLivePerHash (stateOf (addItem cfg o st) st)) ∧
    (∀ (id : String) (st : DBState), atMostOneLivePerHash st →
        atMostOneLivePerHash (pinItem id st).2) ∧
    (∀ (id : String) (st : DBState), atMostOneLivePerHash st →
        atMostOneLivePerHash (unpinItem id st).2) ∧
    (∀ (ids : List String) (st : DBState), atMostOneLivePerHash st →
        atMostOneLivePerHash (moveToTrash ids st).2) ∧
    (∀ (ids : List String) (st : DBState), atMostOneLivePerHash st →
        atMostOneLivePerHash (deleteItems ids st).2) ∧
    (∀ st : DBState, atMostOneLivePerHash st →
        atMostOneLivePerHash (emptyTrash st).2) ∧
    (∀ st : DBState, atMostOneLivePerHash st →
        atMostOneLivePerHash (clearAllHistory st).2) := by
  refine ⟨?_, inv_addItem, fun id st => inv_pin_step true id st,
    fun id st => inv_pin_step false id st, inv_moveToTrash,
    fun ids st => inv_dbDelete ids st, ?_, ?_⟩
  · intro h st id he
    unfold existsByHash at he
    cases hf : st.find? (fun r => r.content_hash == h && r.is_deleted == SVal.vInt 0) with
    | none => rw [hf] at he; simp at he
    | some r =>
      rw [hf] at he
      simp only [Option.map_some', Option.some_inj] at he
      have hm := List.mem_of_find?_eq_some hf
      have hp := List.find?_some hf
      simp only [Bool.and_eq_true, beq_iff_eq] at hp
      exact ⟨r, hm, he ▸ rfl, hp.1, hp.2⟩
  · intro st h
    unfold emptyTrash
    exact inv_guarded_delete _ _ h
  · intro st h
    unfold clearAllHistory
    exact inv_guarded_delete _ _ h

/-- Witness for the amended C5 theorem at a concrete state: a singleton live
store satisfies the invariant, and it is preserved by a concrete addItem. -/
theorem c5_live_hash_uniqueness_amended_witness :
    atMostOneLivePerHash (stateOf (addItem cfg0 (mkTextObj "b" 120 "h2" "Y") c1st1) c1st1) :=
  c5_live_hash_uniqueness_amended.2.1 cfg0 (mkTextObj "b" 120 "h2" "Y") c1st1 (by decide)

/-! ## The update whitelist (C3) -/

theorem filterMap_filter_eq {α β : Type} (f : α → Option β) (p : α → Bool)
    (hp : ∀ x, p x = false → f x = none) :
    ∀ l : List α, (l.filter p).filterMap f = l.filterMap f := by
  intro l
  induction l with
  | nil => rfl
  | cons x xs ih =>
    rw [List.filter_cons]
    cases h : p x
    · rw [if_neg (by simp [h]), ih, List.filterMap_cons, hp x h]
    · rw [if_pos (by simp [h]), List.filterMap_cons, List.filterMap_cons, ih]

theorem buildFields_filter (us : List (String × JsVal)) :
    buildFields (us.filter (fun kv => decide (camelToSnake kv.1 ∈ allowedFields))) =
      buildFields us := by
  unfold buildFields
  apply filterMap_filter_eq
  intro kv h
  simp only [decide_eq_false_iff_not] at h
  simp [h]

theorem dbUpdate_dropped_key (k : String) (hk : ¬ camelToSnake k ∈ allowedFields)
    (st : DBState) (id : String) (v : JsVal) :
    dbUpdate st id [(k, v)] = (false, st) := by
  unfold dbUpdate
  rw [buildFields_single]
  simp [hk]

/-- C3 amended: DatabaseManager.update is whitelist-based with the mutable set
being exactly {is_pinned, is_deleted, plain_text, rich_text, image_data,
thumbnail_data, file_paths, color_value} (`allowedFields`): the stored rows are
rewritten by exactly the whitelisted assignments of the update object; fields
outside the whitelist — including `imagePath`, `thumbnailPath` and `timestamp`
— are silently dropped (no error, no change); and the returned boolean is true
iff at least one whitelisted field was supplied and a row with the given id
exists. -/
theorem c3_update_whitelist :
    (∀ (st : DBState) (id : String) (us : List (String × JsVal)),
        (dbUpdate st id us).2 =
          st.map (fun r => if r.id == id then (buildFields us).foldl setCol r else r)) ∧
    (∀ (st : DBState) (id : String) (us : List (String × JsVal)),
        dbUpdate st id (us.filter (fun kv => decide (camelToSnake kv.1 ∈ allowedFields))) =
          dbUpdate st id us) ∧
    (∀ (st : DBState) (id : String) (v : JsVal),
        dbUpdate st id [("imagePath", v)] = (false, st) ∧
        dbUpdate st id [("thumbnailPath", v)] = (false, st) ∧
        dbUpdate st id [("timestamp", v)] = (false, st)) ∧
    (∀ (st : DBState) (id : String) (b : Bool),
        (dbUpdate st id [("isPinned", JsVal.vBool b)]).2 =
          st.map (fun r => if r.id == id then
            { r with is_pinned := SVal.vInt (if b then 1 else 0) } else r)) ∧
    (∀ (st : DBState) (id : String) (us : List (String × JsVal)),
        (dbUpdate st id us).1 = true ↔
          (buildFields us ≠ [] ∧ ∃ r ∈ st, r.id = id)) := by
  refine ⟨dbUpdate_snd, ?_, ?_, ?_, ?_⟩
  · intro st id us
    unfold dbUpdate
    rw [buildFields_filter]
  · intro st id v
    refine ⟨?_, ?_, ?_⟩ <;>
      exact dbUpdate_dropped_key _ (by decide) st id v
  · intro st id b
    rw [dbUpdate_snd, buildFields_isPinned]
    apply List.map_congr_left
    intro r _
    by_cases hid : (r.id == id) = true
    · simp [hid, setCol_is_pinned]
    · simp [hid]
  · intro st id us
    unfold dbUpdate
    by_cases h : (buildFields us).length = 0
    · rw [List.length_eq_zero] at h
      simp [h]
    · have hne : buildFields us ≠ [] := by
        intro hc; rw [hc] at h; exact h rfl
      simp only [h, if_false, hne, ne_eq, not_false_eq_true, true_and]
      rw [bne_iff_ne]
      constructor
      · intro hlen
        have hpos : 0 < (st.filter (fun r => r.id == id)).length :=
          Nat.pos_of_ne_zero hlen
        rw [List.length_pos] at hpos
        obtain ⟨r, hr⟩ := List.exists_mem_of_ne_nil _ hpos
        have := List.mem_filter.mp hr
        exact ⟨r, this.1, by simpa using this.2⟩
      · intro ⟨r, hr, hid⟩
        intro hlen
        have : r ∈ st.filter (fun r => r.id == id) :=
          List.mem_filter.mpr ⟨hr, by simpa using hid⟩
        have hpos : 0 < (st.filter (fun r => r.id == id)).length :=
          List.length_pos.mpr (List.ne_nil_of_mem this)
        omega

/-! ## Sorting and eviction lemmas (C6, C7) -/

theorem mem_insertTs (asc : Bool) (r x : Row) (l : List Row) :
    x ∈ insertTs asc r l ↔ x ∈ r :: l := by
  induction l with
  | nil => simp [insertTs]
  | cons y ys ih =>
    simp only [insertTs]
    by_cases hc : (if asc then r.timestamp ≤ y.timestamp else y.timestamp ≤ r.timestamp)
    · rw [if_pos hc]
    · rw [if_neg hc]
      simp only [List.mem_cons, ih]
      tauto

theorem mem_sortTs (asc : Bool) (x : Row) (l : List Row) :
    x ∈ sortTs asc l ↔ x ∈ l := by
  induction l with
  | nil => simp [sortTs]
  | cons y ys ih =>
    simp only [sortTs, mem_insertTs, List.mem_cons, ih]

theorem length_insertTs (asc : Bool) (r : Row) (l : List Row) :
    (insertTs asc r l).length = l.length + 1 := by
  induction l with
  | nil => simp [insertTs]
  | cons y ys ih =>
    simp only [insertTs]
    by_cases hc : (if asc then r.timestamp ≤ y.timestamp else y.timestamp ≤ r.timestamp)
    · rw [if_pos hc]
      simp
    · rw [if_neg hc]
      simp [ih]

theorem length_sortTs (asc : Bool) (l : List Row) :
    (sortTs asc l).length = l.length := by
  induction l with
  | nil => rfl
  | cons y ys ih => simp [sortTs, length_insertTs, ih]

theorem sortTs_of_sorted (l : List Row)
    (h : l.Pairwise (fun a b => a.timestamp ≤ b.timestamp)) : sortTs true l = l := by
  induction l with
  | nil => rfl
  | cons y ys ih =>
    rw [List.pairwise_cons] at h
    rw [sortTs, ih h.2]
    cases ys with
    | nil => rfl
    | cons z zs =>
      have hz : y.timestamp ≤ z.timestamp := h.1 z (by simp)
      simp [insertTs, hz]

theorem rowMatches_liveNP (r : Row) :
    rowMatches (some false) (some false) r = true ↔
      (r.is_pinned = SVal.vInt 0 ∧ r.is_deleted = SVal.vInt 0) := by
  simp [rowMatches, Bool.and_eq_true, beq_iff_eq, And.comm]

theorem mem_dbQuery (ip idl : Option Bool) (limit offset : Nat) (asc : Bool)
    (st : DBState) (r : Row) (h : r ∈ dbQuery ip idl limit offset asc st) :
    r ∈ st ∧ rowMatches ip idl r = true := by
  unfold dbQuery at h
  have h1 := List.mem_of_mem_take h
  have h2 := List.mem_of_mem_drop h1
  rw [mem_sortTs] at h2
  have h3 := List.mem_filter.mp h2
  exact h3

theorem delete_take_ids (n : Nat) (rows : DBState) (hnd : (rows.map Row.id).Nodup) :
    rows.filter (fun r => !((((rows.take n).map Row.id)).contains r.id)) = rows.drop n := by
  induction n generalizing rows with
  | zero => simp
  | succ m ih =>
    cases rows with
    | nil => simp
    | cons x xs =>
      simp only [List.take_succ_cons, List.map_cons, List.drop_succ_cons, List.filter_cons]
      rw [List.map_cons, List.nodup_cons] at hnd
      have hx : (x.id :: ((xs.take m).map Row.id)).contains x.id = true := by
        simp
      rw [if_neg (by simp [hx])]
      have hcongr : ∀ r ∈ xs,
          (!((x.id :: ((xs.take m).map Row.id)).contains r.id)) =
          (!(((xs.take m).map Row.id).contains r.id)) := by
        intro r hr
        have hne : r.id ≠ x.id := by
          intro he
          apply hnd.1
          rw [← he]
          exact List.mem_map_of_mem Row.id hr
        simp only [List.contains_cons]
        rw [show (r.id == x.id) = false from beq_eq_false_iff_ne.mpr hne]
        simp
      rw [List.filter_congr hcongr]
      exact ih xs hnd.2

theorem countPass_structure (cfg : Cfg) (st : DBState) :
    countPass cfg st = st ∨
    ∃ ids : List String, countPass cfg st = st.filter (fun r => !(ids.contains r.id)) := by
  simp only [countPass]
  split
  · split
    · right
      exact ⟨_, rfl⟩
    · left; rfl
  · left; rfl

theorem retentionPass_structure (cfg : Cfg) (st : DBState) :
    retentionPass cfg st = st ∨
    ∃ ids : List String, retentionPass cfg st = st.filter (fun r => !(ids.contains r.id)) := by
  simp only [retentionPass]
  split
  · split
    · right
      exact ⟨_, rfl⟩
    · left; rfl
  · left; rfl

theorem mem_of_mem_retentionPass (cfg : Cfg) (st : DBState) (x : Row)
    (h : x ∈ retentionPass cfg st) : x ∈ st := by
  rcases retentionPass_structure cfg st with he | ⟨ids, he⟩
  · rwa [he] at h
  · rw [he] at h
    exact (List.mem_filter.mp h).1

theorem nodup_ids_filter (rows : DBState) (p : Row → Bool)
    (hnd : (rows.map Row.id).Nodup) : ((rows.filter p).map Row.id).Nodup :=
  List.Nodup.sublist (List.Sublist.map Row.id (List.filter_sublist rows)) hnd

theorem mem_delete_of_pinned (rows : DBState) (sel : List Row) (r : Row)
    (hnd : (rows.map Row.id).Nodup) (hr : r ∈ rows) (hp : r.is_pinned ≠ SVal.vInt 0)
    (hsel : ∀ x ∈ sel, x ∈ rows ∧ x.is_pinned = SVal.vInt 0) :
    r ∈ (dbDelete (sel.map Row.id) rows).2 := by
  unfold dbDelete
  refine List.mem_filter.mpr ⟨hr, ?_⟩
  simp only [Bool.not_eq_true']
  by_contra hc
  rw [Bool.not_eq_false, List.contains_eq_any_beq, List.any_eq_true] at hc
  obtain ⟨idx, hidx, hbeq⟩ := hc
  obtain ⟨x, hxsel, hxid⟩ := List.mem_map.mp hidx
  have hre : x.id = r.id := by
    rw [hxid]
    exact (beq_iff_eq.mp hbeq).symm
  have hxr : x = r :=
    List.inj_on_of_nodup_map hnd (hsel x hxsel).1 hr hre
  exact hp (hxr ▸ (hsel x hxsel).2)

theorem pinned_mem_countPass (cfg : Cfg) (rows : DBState) (r : Row)
    (hnd : (rows.map Row.id).Nodup) (hr : r ∈ rows)
    (hp : r.is_pinned ≠ SVal.vInt 0) : r ∈ countPass cfg rows := by
  simp only [countPass]
  split
  · split
    · apply mem_delete_of_pinned rows _ r hnd hr hp
      intro x hx
      have h := mem_dbQuery _ _ _ _ _ _ _ hx
      exact ⟨h.1, ((rowMatches_liveNP x).mp h.2).1⟩
    · exact hr
  · exact hr

theorem pinned_mem_retentionPass (cfg : Cfg) (rows : DBState) (r : Row)
    (hnd : (rows.map Row.id).Nodup) (hr : r ∈ rows)
    (hp : r.is_pinned ≠ SVal.vInt 0) : r ∈ retentionPass cfg rows := by
  simp only [retentionPass]
  split
  · split
    · have hmap : ∀ x ∈ (dbQuery (some false) (some false) 10000 0 true rows).filter
          (fun x => decide (x.timestamp < cfg.now - cfg.retentionDays * 86400000)),
          x ∈ rows ∧ x.is_pinned = SVal.vInt 0 := by
        intro x hx
        have h1 := (List.mem_filter.mp hx).1
        have h := mem_dbQuery _ _ _ _ _ _ _ h1
        exact ⟨h.1, ((rowMatches_liveNP x).mp h.2).1⟩
      exact mem_delete_of_pinned rows _ r hnd hr hp hmap
    · exact hr
  · exact hr

theorem pinned_mem_enforce (cfg : Cfg) (rows : DBState) (r : Row)
    (hnd : (rows.map Row.id).Nodup) (hr : r ∈ rows)
    (hp : r.is_pinned = SVal.vInt 1) : r ∈ enforceStorageLimits cfg rows := by
  unfold enforceStorageLimits
  have hp' : r.is_pinned ≠ SVal.vInt 0 := by rw [hp]; intro hc; cases hc
  have h1 : r ∈ countPass cfg rows := pinned_mem_countPass cfg rows r hnd hr hp'
  have hnd1 : ((countPass cfg rows).map Row.id).Nodup := by
    rcases countPass_structure cfg rows with he | ⟨ids, he⟩
    · rwa [he]
    · rw [he]
      exact nodup_ids_filter rows _ hnd
  exact pinned_mem_retentionPass cfg _ r hnd1 h1 hp'

/-- C6: the eviction boundary. With `maxHistoryItems = N` and N+5 non-pinned
live rows in increasing timestamp order (and none in the retention window's
past), enforcement leaves exactly the N most recent rows, removing the oldest
5; and a pinned row is never removed by enforcement, whatever the state. -/
theorem c6_eviction_boundary :
    (∀ (cfg : Cfg) (N : Nat) (rows : DBState),
        cfg.maxItems = N →
        rows.length = N + 5 →
        (∀ r ∈ rows, r.is_pinned = SVal.vInt 0 ∧ r.is_deleted = SVal.vInt 0) →
        rows.Pairwise (fun a b => a.timestamp < b.timestamp) →
        (rows.map Row.id).Nodup →
        (∀ r ∈ rows, cfg.now - cfg.retentionDays * 86400000 ≤ r.timestamp) →
        enforceStorageLimits cfg rows = rows.drop 5 ∧
        (rows.drop 5).length = N) ∧
    (∀ (cfg : Cfg) (rows : DBState) (r : Row),
        (rows.map Row.id).Nodup → r ∈ rows → r.is_pinned = SVal.vInt 1 →
        r ∈ enforceStorageLimits cfg rows) := by
  constructor
  · intro cfg N rows hmax hlen hall hsorted hnd hfresh
    have hfilter1 : rows.filter (rowMatches none (some false)) = rows := by
      rw [List.filter_eq_self]
      intro r hr
      simp [rowMatches, (hall r hr).2]
    have hfilter2 : rows.filter (rowMatches (some false) (some false)) = rows := by
      rw [List.filter_eq_self]
      intro r hr
      exact (rowMatches_liveNP r).mpr ⟨(hall r hr).1, (hall r hr).2⟩
    have hcount : dbCount none (some false) rows = N + 5 := by
      unfold dbCount
      rw [hfilter1, hlen]
    have hsortfix : sortTs true rows = rows :=
      sortTs_of_sorted rows (hsorted.imp (fun h => le_of_lt h))
    have hq : dbQuery (some false) (some false) 5 0 true rows = rows.take 5 := by
      unfold dbQuery
      rw [hfilter2, hsortfix, List.drop_zero]
    have hcp : countPass cfg rows = rows.drop 5 := by
      simp only [countPass, hcount, hmax]
      rw [if_pos (by omega : N < N + 5)]
      have h5 : N + 5 - N = 5 := by omega
      rw [h5, hq]
      have hlen5 : ((rows.take 5).map Row.id).length = 5 := by
        rw [List.length_map, List.length_take, hlen]
        omega
      rw [if_pos (by rw [hlen5]; omega)]
      show rows.filter _ = rows.drop 5
      exact delete_take_ids 5 rows hnd
    have hrp : retentionPass cfg (rows.drop 5) = rows.drop 5 := by
      simp only [retentionPass]
      split
      · have hnilf : (dbQuery (some false) (some false) 10000 0 true (rows.drop 5)).filter
            (fun r => decide (r.timestamp <
              cfg.now - cfg.retentionDays * 86400000)) = [] := by
          rw [List.filter_eq_nil_iff]
          intro x hx
          have hmem := (mem_dbQuery _ _ _ _ _ _ _ hx).1
          have hx2 : x ∈ rows := List.mem_of_mem_drop hmem
          have hf := hfresh x hx2
          simp only [decide_eq_true_eq, not_lt]
          exact hf
        rw [hnilf]
        simp
      · rfl
    refine ⟨?_, by rw [List.length_drop, hlen]; omega⟩
    unfold enforceStorageLimits
    rw [hcp, hrp]
  · intro cfg rows r hnd hr hp
    exact pinned_mem_enforce cfg rows r hnd hr hp

/-- Witness data for C6: seven rows, increasing timestamps, distinct ids. -/
def c6row (i : Nat) : Row :=
  { id := toString i, type := "text", timestamp := (i : Int),
    is_pinned := SVal.vInt 0, is_deleted := SVal.vInt 0, content_hash := toString i,
    plain_text := SVal.vNull, rich_text := SVal.vNull, image_data := SVal.vNull,
    thumbnail_data := SVal.vNull, image_path := none, thumbnail_path := none,
    file_paths := SVal.vNull, color_value := SVal.vNull,
    source_application := none, file_size := none, file_count := none,
    file_types := none, is_all_images := 0 }

/-- Seven non-pinned live rows with timestamps 1..7. -/
def c6rows : DBState := [c6row 1, c6row 2, c6row 3, c6row 4, c6row 5, c6row 6, c6row 7]

/-- A pinned row. -/
def c6pinned : Row := { c6row 9 with is_pinned := SVal.vInt 1 }

theorem c6_eviction_boundary_witness :
    (enforceStorageLimits ⟨2, 30, 10⟩ c6rows = c6rows.drop 5 ∧
     (c6rows.drop 5).length = 2) ∧
    c6pinned ∈ enforceStorageLimits ⟨0, 30, 10⟩ [c6pinned] :=
  ⟨c6_eviction_boundary.1 ⟨2, 30, 10⟩ 2 c6rows (by decide) (by decide) (by decide)
      (by decide) (by decide) (by decide),
   c6_eviction_boundary.2 ⟨0, 30, 10⟩ [c6pinned] c6pinned (by decide) (by decide)
      (by decide)⟩

/-- The retention pass removes any row it can see that is expired. -/
theorem retention_removes (cfg : Cfg) (st1 : DBState) (r : Row)
    (hpos : 0 < cfg.retentionDays)
    (hbound : (st1.filter (rowMatches (some false) (some false))).length ≤ 10000)
    (hr : r ∈ st1) (hp : r.is_pinned = SVal.vInt 0) (hd : r.is_deleted = SVal.vInt 0)
    (hold : r.timestamp < cfg.now - cfg.retentionDays * 86400000) :
    ∀ x ∈ retentionPass cfg st1, x.id ≠ r.id := by
  intro x hx
  simp only [retentionPass, if_pos hpos] at hx
  have hq : dbQuery (some false) (some false) 10000 0 true st1 =
      sortTs true (st1.filter (rowMatches (some false) (some false))) := by
    unfold dbQuery
    rw [List.drop_zero]
    apply List.take_of_length_le
    rw [length_sortTs]
    exact hbound
  have hrq : r ∈ dbQuery (some false) (some false) 10000 0 true st1 := by
    rw [hq, mem_sortTs]
    exact List.mem_filter.mpr ⟨hr, (rowMatches_liveNP r).mpr ⟨hp, hd⟩⟩
  have hrexp : r ∈ (dbQuery (some false) (some false) 10000 0 true st1).filter
      (fun r => decide (r.timestamp < cfg.now - cfg.retentionDays * 86400000)) :=
    List.mem_filter.mpr ⟨hrq, by simp only [decide_eq_true_eq]; exact hold⟩
  have hrid : r.id ∈ ((dbQuery (some false) (some false) 10000 0 true st1).filter
      (fun r => decide (r.timestamp < cfg.now - cfg.retentionDays * 86400000))).map Row.id :=
    List.mem_map_of_mem Row.id hrexp
  rw [if_pos (by
    intro h0
    rw [List.length_eq_zero] at h0
    rw [h0] at hrid
    cases hrid)] at hx
  have hx2 := List.mem_filter.mp hx
  intro heq
  have hcont : (((dbQuery (some false) (some false) 10000 0 true st1).filter
      (fun r => decide (r.timestamp < cfg.now - cfg.retentionDays * 86400000))).map Row.id).contains x.id = true := by
    rw [List.contains_eq_any_beq, List.any_eq_true]
    exact ⟨r.id, hrid, by rw [heq]; exact beq_self_eq_true r.id⟩
  rw [hcont] at hx2
  cases hx2.2

/-- C7: retention boundary. Any non-pinned live row older than the retention
cutoff is removed by enforcement regardless of the configured maximum or total
count (given the retention query's 10000-row page covers the live non-pinned
rows); the same row pinned is retained by enforcement. -/
theorem c7_retention_boundary :
    (∀ (cfg : Cfg) (rows : DBState) (r : Row),
        0 < cfg.retentionDays →
        (rows.filter (rowMatches (some false) (some false))).length ≤ 10000 →
        r ∈ rows →
        r.is_pinned = SVal.vInt 0 → r.is_deleted = SVal.vInt 0 →
        r.timestamp < cfg.now - cfg.retentionDays * 86400000 →
        ∀ x ∈ enforceStorageLimits cfg rows, x.id ≠ r.id) ∧
    (∀ (cfg : Cfg) (rows : DBState) (r : Row),
        (rows.map Row.id).Nodup → r ∈ rows → r.is_pinned = SVal.vInt 1 →
        r ∈ enforceStorageLimits cfg rows) := by
  constructor
  · intro cfg rows r hpos hbound hr hp hd hold
    rcases countPass_structure cfg rows with hceq | ⟨ids1, hceq⟩
    · unfold enforceStorageLimits
      rw [hceq]
      exact retention_removes cfg rows r hpos hbound hr hp hd hold
    · unfold enforceStorageLimits
      rw [hceq]
      by_cases hcr : (ids1.contains r.id) = true
      · intro x hx heq
        have hx1 := mem_of_mem_retentionPass _ _ _ hx
        have hx2 := List.mem_filter.mp hx1
        rw [heq, hcr] at hx2
        cases hx2.2
      · have hcf : ids1.contains r.id = false := by
          cases h : ids1.contains r.id
          · rfl
          · exact absurd h hcr
        have hr1 : r ∈ rows.filter (fun r => !(ids1.contains r.id)) :=
          List.mem_filter.mpr ⟨hr, by rw [hcf]; rfl⟩
        have hbound1 : ((rows.filter (fun r => !(ids1.contains r.id))).filter
            (rowMatches (some false) (some false))).length ≤ 10000 :=
          le_trans (List.Sublist.length_le
            (List.Sublist.filter _ (List.filter_sublist rows))) hbound
        exact retention_removes cfg _ r hpos hbound1 hr1 hp hd hold
  · intro cfg rows r hnd hr hp
    exact pinned_mem_enforce cfg rows r hnd hr hp

/-- An expired non-pinned row (timestamp 0, cutoff positive). -/
def c7old : Row := c6row 1

/-- The same row pinned. -/
def c7oldPinned : Row := { c6row 1 with is_pinned := SVal.vInt 1 }

/-- The C7 configuration: retention window of 1 day, now far in the future. -/
def c7cfg : Cfg := ⟨1000, 1, 86400100⟩

theorem c7_retention_boundary_witness :
    (∀ x ∈ enforceStorageLimits c7cfg [c7old], x.id ≠ "1") ∧
    c7oldPinned ∈ enforceStorageLimits c7cfg [c7oldPinned] :=
  ⟨by
    have h := c7_retention_boundary.1 c7cfg [c7old] c7old (by decide) (by decide)
      (by decide) (by decide) (by decide) (by decide)
    intro x hx
    exact h x hx,
   c7_retention_boundary.2 c7cfg [c7oldPinned] c7oldPinned (by decide) (by decide)
     (by decide)⟩

/-! ## Content hash properties (C8) -/

theorem take_eq_of_take_eq_short {α : Type} (m : Nat) (b c : List α)
    (h : c.take m = b) (hb : b.length < m) : c = b := by
  by_cases hcl : c.length ≤ m
  · rw [List.take_of_length_le hcl] at h
    exact h
  · exfalso
    have hlen : (c.take m).length = m := by
      rw [List.length_take]
      omega
    rw [h] at hlen
    omega

theorem b64_take_prefix : ∀ (n : Nat) (b c : List Nat),
    b.take (3 * n) = c.take (3 * n) → (b64 b).take (4 * n) = (b64 c).take (4 * n) := by
  intro n
  induction n with
  | zero => intro b c _; simp
  | succ m ih =>
    intro b c h
    by_cases hb : b.length < 3 * (m + 1)
    · have hbt : b.take (3 * (m + 1)) = b := List.take_of_length_le (by omega)
      rw [hbt] at h
      have hc : c = b := take_eq_of_take_eq_short _ _ _ h.symm hb
      rw [hc]
    · by_cases hc : c.length < 3 * (m + 1)
      · have hct : c.take (3 * (m + 1)) = c := List.take_of_length_le (by omega)
        rw [hct] at h
        have hb2 : b = c := take_eq_of_take_eq_short _ _ _ h hc
        rw [hb2]
      · rcases b with _ | ⟨b1, _ | ⟨b2, _ | ⟨b3, br⟩⟩⟩
        · exfalso; simp only [List.length_nil] at hb; omega
        · exfalso; simp only [List.length_cons, List.length_nil] at hb; omega
        · exfalso; simp only [List.length_cons, List.length_nil] at hb; omega
        rcases c with _ | ⟨c1, _ | ⟨c2, _ | ⟨c3, cr⟩⟩⟩
        · exfalso; simp only [List.length_nil] at hc; omega
        · exfalso; simp only [List.length_cons, List.length_nil] at hc; omega
        · exfalso; simp only [List.length_cons, List.length_nil] at hc; omega
        have e3 : 3 * (m + 1) = 3 * m + 1 + 1 + 1 := by ring
        rw [e3] at h
        simp only [List.take_succ_cons, List.cons.injEq] at h
        obtain ⟨h1, h2, h3, htail⟩ := h
        subst h1; subst h2; subst h3
        show (b64Char _ :: b64Char _ :: b64Char _ :: b64Char _ :: b64 br).take (4 * (m + 1)) =
          (b64Char _ :: b64Char _ :: b64Char _ :: b64Char _ :: b64 cr).take (4 * (m + 1))
        have e4 : 4 * (m + 1) = 4 * m + 1 + 1 + 1 + 1 := by ring
        rw [e4]
        simp only [List.take_succ_cons, List.cons.injEq, true_and]
        exact ih br cr htail

/-- C8: the content hash is a deterministic pure function of type plus payload;
the digests of "abc" and "abcd" differ (the spec's concrete hash-purity test);
for Text/RichText the digest depends only on the plain-text representation
(rich markup is never read); for Image the digest is computed from the first
1000 base64 characters, i.e. only the first 750 bytes of the image influence
it; and an empty or missing payload hashes to the digest of the empty string
for every type. -/
theorem c8_content_hash :
    (∀ (t : String) (p : Option String) (i : Option (List Nat))
        (f : Option (List String)) (c : Option String),
        genHashFields t p i f c = genHashFields t p i f c) ∧
    (genHashFields "text" (some "abc") none none none ≠
      genHashFields "text" (some "abcd") none none none) ∧
    (∀ it1 it2 : ClipboardItem,
        (it1.type = "text" ∨ it1.type = "richText") →
        (it2.type = "text" ∨ it2.type = "richText") →
        it1.plainText = it2.plainText →
        itemHash it1 = itemHash it2) ∧
    (∀ b1 b2 : List Nat, b1.take 750 = b2.take 750 →
        genHashFields "image" none (some b1) none none =
        genHashFields "image" none (some b2) none none) ∧
    (∀ t : String, genHashFields t none none none none = sha256str "") := by
  refine ⟨fun t p i f c => rfl, by decide, ?_, ?_, ?_⟩
  · intro it1 it2 h1 h2 hpt
    unfold itemHash genHashFields
    rw [if_pos h1, if_pos h2, hpt]
  · intro b1 b2 h
    have hpre : (b64 b1).take 1000 = (b64 b2).take 1000 := by
      have := b64_take_prefix 250 b1 b2 (by simpa using h)
      simpa using this
    show sha256str ⟨(b64 b1).take 1000⟩ = sha256str ⟨(b64 b2).take 1000⟩
    rw [hpre]
  · intro t
    unfold genHashFields
    split
    · rfl
    · split
      · rfl
      · split
        · rfl
        · split <;> rfl

/-- Arguments for a concrete Text item. -/
def c8text : CtorArgs :=
  { type := "text", plainText := some "hi", contentHash := some "h" }

/-- Arguments for a concrete RichText item with the same plain text. -/
def c8rich : CtorArgs :=
  { type := "richText", plainText := some "hi", richText := some "b-hi",
    contentHash := some "h" }

/-- Witness for the hypothesis-bearing parts of C8: a Text and a RichText item
with the same plain text hash identically, and two 751-byte images agreeing on
their first 750 bytes hash identically. -/
theorem c8_content_hash_witness :
    itemHash (mkItem "f" 1 c8text) = itemHash (mkItem "f" 1 c8rich) ∧
    genHashFields "image" none (some (List.replicate 750 0 ++ [1])) none none =
      genHashFields "image" none (some (List.replicate 750 0 ++ [2])) none none :=
  ⟨c8_content_hash.2.2.1 _ _ (by decide) (by decide) (by decide),
   c8_content_hash.2.2.2.1 _ _ (by decide)⟩

/-! ## Serialization round trip (C9) -/

theorem strMk_data (s : String) : (⟨s.data⟩ : String) = s := by
  cases s
  rfl

theorem parseStrBody_inv : ∀ (s : List Char) (r : List Char),
    parseStrBody (s.flatMap jsonEscChar ++ '"' :: r) = some (s, r) := by
  intro s
  induction s with
  | nil =>
    intro r
    simp only [List.flatMap_nil, List.nil_append]
    unfold parseStrBody
    rw [if_neg (by decide), if_pos rfl]
  | cons c cs ih =>
    intro r
    simp only [List.flatMap_cons, List.append_assoc]
    unfold jsonEscChar
    by_cases hc : c = '"' ∨ c = '\\'
    · rw [if_pos hc]
      show parseStrBody ('\\' :: c :: (cs.flatMap jsonEscChar ++ '"' :: r)) = _
      unfold parseStrBody
      rw [if_pos rfl]
      simp only [ih, Option.map_some']
    · rw [if_neg hc]
      show parseStrBody (c :: (cs.flatMap jsonEscChar ++ '"' :: r)) = _
      unfold parseStrBody
      have h1 : ¬(c = '\\') := fun he => hc (Or.inr he)
      have h2 : ¬(c = '"') := fun he => hc (Or.inl he)
      rw [if_neg h1, if_neg h2]
      simp only [ih, Option.map_some']

theorem parseArrItems_inv : ∀ (l : List String) (fuel : Nat), l ≠ [] → l.length ≤ fuel →
    parseArrItems fuel (joinComma (l.map jsonQuote) ++ [']']) =
      some (l.map String.data, []) := by
  intro l
  induction l with
  | nil => intro fuel h; exact absurd rfl h
  | cons x xs ih =>
    intro fuel _ hf
    cases fuel with
    | zero => simp at hf
    | succ f =>
      cases xs with
      | nil =>
        show parseArrItems (f + 1) (jsonQuote x ++ [']']) = some ([x.data], [])
        have he : jsonQuote x ++ [']'] =
            '"' :: (x.data.flatMap jsonEscChar ++ '"' :: [']']) := by
          simp [jsonQuote]
        rw [he]
        unfold parseArrItems
        rw [if_pos rfl, parseStrBody_inv]
        rfl
      | cons y ys =>
        show parseArrItems (f + 1)
            ((jsonQuote x ++ ',' :: joinComma ((y :: ys).map jsonQuote)) ++ [']']) = _
        have he : (jsonQuote x ++ ',' :: joinComma ((y :: ys).map jsonQuote)) ++ [']'] =
            '"' :: (x.data.flatMap jsonEscChar ++ '"' ::
              (',' :: (joinComma ((y :: ys).map jsonQuote) ++ [']']))) := by
          simp [jsonQuote]
        rw [he]
        unfold parseArrItems
        rw [if_pos rfl, parseStrBody_inv]
        have hr := ih f (by simp) (by simp at hf ⊢; omega)
        simp only [hr, Option.map_some']
        rfl

theorem len_joinComma : ∀ l : List String,
    l.length ≤ (joinComma (l.map jsonQuote)).length + 1 := by
  intro l
  induction l with
  | nil => simp [joinComma]
  | cons x xs ih =>
    cases xs with
    | nil => simp [joinComma]
    | cons y ys =>
      show (x :: y :: ys).length ≤ (jsonQuote x ++ ',' :: joinComma ((y :: ys).map jsonQuote)).length + 1
      rw [List.length_append, List.length_cons]
      have hq : 1 ≤ (jsonQuote x).length := by
        unfold jsonQuote
        simp
      simp only [List.length_cons] at ih ⊢
      omega

theorem jsonRoundtrip (l : List String) : jsonParseStrArr (jsonStrArr l) = some l := by
  cases l with
  | nil => rfl
  | cons x xs =>
    obtain ⟨t, ht⟩ : ∃ t, joinComma ((x :: xs).map jsonQuote) = '"' :: t := by
      cases xs with
      | nil => exact ⟨_, rfl⟩
      | cons y ys =>
        show ∃ t, jsonQuote x ++ ',' :: joinComma ((y :: ys).map jsonQuote) = '"' :: t
        exact ⟨_, rfl⟩
    show jsonParseStrArr ⟨'[' :: (joinComma ((x :: xs).map jsonQuote) ++ [']'])⟩ = _
    unfold jsonParseStrArr
    rw [show (⟨'[' :: (joinComma ((x :: xs).map jsonQuote) ++ [']'])⟩ : String).data =
        '[' :: (joinComma ((x :: xs).map jsonQuote) ++ [']']) from rfl]
    rw [ht]
    show (match parseArrItems ((('"' :: t) ++ [']']).length + 1)
        (('"' :: t) ++ [']']) with
      | some (items, []) => some (items.map (fun cs => (⟨cs⟩ : String)))
      | _ => none) = some (x :: xs)
    rw [← ht]
    have hfuel : (x :: xs).length ≤
        ((joinComma ((x :: xs).map jsonQuote) ++ [']']).length + 1) := by
      have hlen := len_joinComma (x :: xs)
      simp only [List.length_append, List.length_cons] at hlen ⊢
      omega
    rw [parseArrItems_inv (x :: xs) _ (by simp) hfuel]
    show some (((x :: xs).map String.data).map (fun cs => (⟨cs⟩ : String))) = _
    rw [List.map_map]
    rw [show ((fun cs => (⟨cs⟩ : String)) ∘ String.data) = id from funext fun s => strMk_data s]
    rw [List.map_id]

theorem jsonStrArr_ne_empty (l : List String) : jsonStrArr l ≠ "" := by
  intro h
  have hd := congrArg String.data h
  simp [jsonStrArr] at hd

/-- C9: for every well-formed ClipboardItem (non-empty id and contentHash,
non-zero timestamp — every item the constructor produces satisfies this),
deserializing its serialized form reproduces the item exactly: id, type,
timestamps, flags, and every payload field including filePaths, fileTypes,
isAllImages, image/thumbnail data and paths, and color value. The result does
not depend on the ambient fresh id or clock. -/
theorem c9_roundtrip (freshId : String) (now : Int) (it : ClipboardItem)
    (hid : it.id ≠ "") (hts : it.timestamp ≠ 0) (hch : it.contentHash ≠ "") :
    fromDatabase freshId now (toDatabase it) = Except.ok it := by
  obtain ⟨iid, ity, its, ipn, idl, ich, ipt, irt, iim, ith, iip, itp, ifp, icv,
    isa, ifs, ifc, ift, iai, itn⟩ := it
  unfold toDatabase fromDatabase
  dsimp only at hid hts hch ⊢
  cases ift with
  | none =>
    simp only [Option.map_none']
    unfold mkItem
    simp only [Except.map]
    simp [hid, hts, hch]
    cases iai <;> simp
  | some l =>
    simp only [Option.map_some']
    rw [if_neg (jsonStrArr_ne_empty l), jsonRoundtrip]
    unfold mkItem
    simp only [Except.map]
    simp [hid, hts, hch]
    cases iai <;> simp

/-- A concrete multi-file item exercising every payload field. -/
def c9item : ClipboardItem :=
  { id := "w1", type := "multi-file", timestamp := 5, isPinned := true,
    isDeleted := false, contentHash := "h9", plainText := some "p",
    richText := some "r", imageData := some [1, 2], imageThumbnail := some [3],
    imagePath := some "store/images/w1.webp",
    thumbnailPath := some "store/thumbnails/w1.jpg",
    filePaths := some ["/a/x.png", "/b/y.txt"], colorValue := some "#fff",
    sourceApplication := some "app", fileSize := some 2, fileCount := some 2,
    fileTypes := some ["png", "txt"], isAllImages := false,
    thumbnails := some "t" }

theorem c9_roundtrip_witness :
    fromDatabase "fresh" 99 (toDatabase c9item) = Except.ok c9item :=
  c9_roundtrip "fresh" 99 c9item (by decide) (by decide) (by decide)

/-! ## Path lemmas (C10) -/

theorem strAppend_data (a b : String) : (a ++ b).data = a.data ++ b.data := rfl

theorem splitSlash_ne_nil : ∀ l : List Char, splitSlash l ≠ [] := by
  intro l
  cases l with
  | nil => simp [splitSlash]
  | cons c rest =>
    unfold splitSlash
    by_cases h : c = '/'
    · simp [h]
    · rw [if_neg h]
      cases hs : splitSlash rest <;> simp

theorem splitSlash_append : ∀ xs ys : List Char,
    splitSlash (xs ++ '/' :: ys) = splitSlash xs ++ splitSlash ys := by
  intro xs ys
  induction xs with
  | nil =>
    show splitSlash ('/' :: ys) = splitSlash [] ++ splitSlash ys
    conv_lhs => rw [splitSlash]
    rw [if_pos rfl]
    rfl
  | cons c rest ih =>
    show splitSlash (c :: (rest ++ '/' :: ys)) = splitSlash (c :: rest) ++ splitSlash ys
    conv_lhs => rw [splitSlash]
    conv_rhs => rw [splitSlash]
    by_cases h : c = '/'
    · rw [if_pos h, if_pos h, ih]
      rfl
    · rw [if_neg h, if_neg h, ih]
      cases hs : splitSlash rest with
      | nil => exact absurd hs (splitSlash_ne_nil rest)
      | cons s ss => rfl

theorem splitSlash_no_slash : ∀ l : List Char, '/' ∉ l → splitSlash l = [l] := by
  intro l
  induction l with
  | nil => intro _; rfl
  | cons c rest ih =>
    intro h
    have hc : ¬ c = '/' := by
      intro he
      exact h (by rw [he]; exact List.mem_cons_self '/' rest)
    conv_lhs => rw [splitSlash]
    rw [if_neg hc, ih (fun hm => h (List.mem_cons_of_mem c hm))]

theorem joinSegsAux_cons_cons (c : Char) (s : List Char) (ss : List (List Char)) :
    joinSegsAux ((c :: s) :: ss) = c :: joinSegsAux (s :: ss) := by
  cases ss with
  | nil => rfl
  | cons z zs => rfl

theorem joinSegsAux_splitSlash : ∀ l : List Char, joinSegsAux (splitSlash l) = l := by
  intro l
  induction l with
  | nil => rfl
  | cons c rest ih =>
    unfold splitSlash
    by_cases h : c = '/'
    · rw [if_pos h]
      cases hs : splitSlash rest with
      | nil => exact absurd hs (splitSlash_ne_nil rest)
      | cons s ss =>
        show joinSegsAux ([] :: s :: ss) = c :: rest
        show [] ++ '/' :: joinSegsAux (s :: ss) = c :: rest
        rw [List.nil_append, ← hs, ih, h]
    · rw [if_neg h]
      cases hs : splitSlash rest with
      | nil => exact absurd hs (splitSlash_ne_nil rest)
      | cons s ss =>
        rw [joinSegsAux_cons_cons, ← hs, ih]

theorem normStep_plain (stack : List (List Char)) (s : List Char)
    (h : plainSeg s = true) : normStep stack s = s :: stack := by
  unfold plainSeg at h
  simp only [Bool.not_eq_true', Bool.or_eq_false_iff] at h
  unfold normStep
  rw [if_neg (by
    intro hc
    rcases hc with hc | hc
    · rw [hc] at h
      simp at h
    · rw [hc] at h
      simp at h), if_neg (by
    intro hc
    rw [hc] at h
    simp at h)]

theorem foldl_normStep_plain : ∀ (segs : List (List Char)) (stack : List (List Char)),
    (∀ s ∈ segs, plainSeg s = true) →
    segs.foldl normStep stack = segs.reverse ++ stack := by
  intro segs
  induction segs with
  | nil => intro stack _; simp
  | cons s ss ih =>
    intro stack h
    rw [List.foldl_cons, normStep_plain stack s (h s (by simp)),
      ih (s :: stack) (fun x hx => h x (by simp [hx]))]
    simp

theorem normSegs_plain (segs : List (List Char)) (h : ∀ s ∈ segs, plainSeg s = true) :
    normSegs segs = segs := by
  unfold normSegs
  rw [foldl_normStep_plain segs [] h]
  simp

theorem joinSegsAux_append_single : ∀ (xs : List (List Char)) (y : List Char),
    xs ≠ [] → joinSegsAux (xs ++ [y]) = joinSegsAux xs ++ '/' :: y := by
  intro xs
  induction xs with
  | nil => intro y h; exact absurd rfl h
  | cons s ss ih =>
    intro y _
    cases ss with
    | nil => rfl
    | cons z zs =>
      show joinSegsAux (s :: ((z :: zs) ++ [y])) = (s ++ '/' :: joinSegsAux (z :: zs)) ++ '/' :: y
      have h1 : joinSegsAux (s :: ((z :: zs) ++ [y])) =
          s ++ '/' :: joinSegsAux ((z :: zs) ++ [y]) := rfl
      rw [h1, ih y (by simp)]
      simp

theorem pathJoin_plain (a b : String) (ha : goodPath a = true)
    (hb1 : plainSeg b.data = true) (hb2 : '/' ∉ b.data) :
    pathJoin a b = a ++ "/" ++ b := by
  unfold pathJoin
  rw [splitSlash_append, splitSlash_no_slash b.data hb2]
  have hplain : ∀ s ∈ splitSlash a.data ++ [b.data], plainSeg s = true := by
    intro s hs
    rcases List.mem_append.mp hs with hs | hs
    · unfold goodPath at ha
      exact List.all_eq_true.mp ha s hs
    · rw [List.mem_singleton.mp hs]
      exact hb1
  rw [normSegs_plain _ hplain]
  have hne : splitSlash a.data ++ [b.data] ≠ [] := by
    intro hc
    rcases List.append_eq_nil.mp hc with ⟨h1, _⟩
    exact splitSlash_ne_nil a.data h1
  obtain ⟨s, ss, hsp⟩ : ∃ s ss, splitSlash a.data ++ [b.data] = s :: ss := by
    cases h : splitSlash a.data ++ [b.data] with
    | nil => exact absurd h hne
    | cons s ss => exact ⟨s, ss, rfl⟩
  rw [hsp]
  show (⟨joinSegsAux (s :: ss)⟩ : String) = a ++ "/" ++ b
  rw [← hsp, joinSegsAux_append_single _ _ (splitSlash_ne_nil a.data),
    joinSegsAux_splitSlash]
  show (⟨a.data ++ '/' :: b.data⟩ : String) = a ++ "/" ++ b
  have hd : (a ++ "/" ++ b).data = a.data ++ '/' :: b.data := by
    rw [strAppend_data, strAppend_data, List.append_assoc]
    rfl
  rw [← hd, strMk_data]

theorem goodPath_append_seg (a b : String) (ha : goodPath a = true)
    (hb1 : plainSeg b.data = true) (hb2 : '/' ∉ b.data) :
    goodPath (a ++ "/" ++ b) = true := by
  unfold goodPath
  have hd : (a ++ "/" ++ b).data = a.data ++ '/' :: b.data := by
    rw [strAppend_data, strAppend_data, List.append_assoc]
    rfl
  rw [hd, splitSlash_append, splitSlash_no_slash b.data hb2]
  rw [List.all_eq_true]
  intro s hs
  rcases List.mem_append.mp hs with hs | hs
  · unfold goodPath at ha
    exact List.all_eq_true.mp ha s hs
  · rw [List.mem_singleton.mp hs]
    exact hb1

theorem plainSeg_of_len (l : List Char) (h : 2 < l.length) : plainSeg l = true := by
  unfold plainSeg
  rcases l with _ | ⟨a, _ | ⟨b, _ | ⟨c, rest⟩⟩⟩
  · simp at h
  · simp at h
  · simp at h
  · simp

theorem hasSubList_single : ∀ (l : List Char) (c : Char),
    hasSubList l [c] = false → c ∉ l := by
  intro l c
  induction l with
  | nil => intro _ hm; cases hm
  | cons x rest ih =>
    intro h hm
    unfold hasSubList at h
    simp only [List.isPrefixOf, Bool.or_eq_false_iff, Bool.and_eq_false_iff] at h
    rcases List.mem_cons.mp hm with hm | hm
    · rcases h.1 with h1 | h1
      · rw [hm] at h1
        simp at h1
      · simp [List.isPrefixOf] at h1
    · exact ih h.2 hm

theorem validId_ne_empty (id : String) (h : validId id = true) : id.data ≠ [] := by
  unfold validId at h
  simp only [Bool.not_eq_true', Bool.or_eq_false_iff] at h
  intro hc
  have : id = "" := by
    rw [← strMk_data id, hc]
  rw [this] at h
  simp at h

theorem validId_no_slash (id : String) (h : validId id = true) : '/' ∉ id.data := by
  unfold validId at h
  simp only [Bool.not_eq_true', Bool.or_eq_false_iff] at h
  have hs : strIncludes id "/" = false := h.1.2
  unfold strIncludes at hs
  exact hasSubList_single id.data '/' hs

/-! ## Filesystem lemmas (C10) -/

theorem fsRead_remove (fs : FS) (p q : String) :
    fsRead (fsRemove fs p) q = if q = p then none else fsRead fs q := by
  induction fs with
  | nil =>
    unfold fsRemove fsRead
    simp only [List.filter_nil, List.find?_nil, Option.map_none']
    split <;> rfl
  | cons e rest ih =>
    unfold fsRemove fsRead at ih ⊢
    simp only [List.filter_cons]
    by_cases hep : e.1 = p
    · rw [if_neg (by simp [hep])]
      rw [ih]
      by_cases hqp : q = p
      · rw [if_pos hqp, if_pos hqp]
      · rw [if_neg hqp, if_neg hqp]
        have hb : (e.1 == q) = false :=
          beq_eq_false_iff_ne.mpr (by rw [hep]; exact fun he => hqp he.symm)
        simp only [List.find?_cons, hb]
    · rw [if_pos (by simp [hep])]
      simp only [List.find?_cons]
      by_cases heq : e.1 = q
      · have hqp : ¬ q = p := by
          rw [← heq]
          exact fun he => hep he
        rw [if_neg hqp]
        have hb : (e.1 == q) = true := beq_iff_eq.mpr heq
        simp only [hb]
      · have hb : (e.1 == q) = false := beq_eq_false_iff_ne.mpr heq
        simp only [hb]
        exact ih

theorem fsRead_write (fs : FS) (p : String) (c : List Nat) (q : String) :
    fsRead (fsWrite fs p c) q = if q = p then some c else fsRead fs q := by
  show fsRead ((p, c) :: fsRemove fs p) q = _
  unfold fsRead
  simp only [List.find?_cons]
  by_cases h : q = p
  · rw [if_pos h]
    have hb : (p == q) = true := beq_iff_eq.mpr h.symm
    simp only [hb, Option.map_some']
  · rw [if_neg h]
    have hb : (p == q) = false := beq_eq_false_iff_ne.mpr (fun he => h he.symm)
    simp only [hb]
    have := fsRead_remove fs p q
    rw [if_neg h] at this
    unfold fsRead fsRemove at this
    exact this

/-! ## Extension mismatch (C10) -/

theorem append_ne_of_rev (A B x y : List Char)
    (h : ∀ C D : List Char, x.reverse ++ C ≠ y.reverse ++ D) : A ++ x ≠ B ++ y := by
  intro he
  exact h A.reverse B.reverse
    (by rw [← List.reverse_append, he, List.reverse_append])

theorem strne_of_ext (P Q : String) (A B x y : List Char)
    (hP : P.data = A ++ x) (hQ : Q.data = B ++ y)
    (h : ∀ C D : List Char, x.reverse ++ C ≠ y.reverse ++ D) : P ≠ Q := by
  intro he
  exact append_ne_of_rev A B x y h (by rw [← hP, ← hQ, he])

theorem rev_png_webp : ∀ C D : List Char,
    ".png".data.reverse ++ C ≠ ".webp".data.reverse ++ D := by
  intro C D h
  rw [show ".png".data.reverse = ['g', 'n', 'p', '.'] from by decide,
    show ".webp".data.reverse = ['p', 'b', 'e', 'w', '.'] from by decide] at h
  simp at h

theorem rev_png_jpg : ∀ C D : List Char,
    ".png".data.reverse ++ C ≠ ".jpg".data.reverse ++ D := by
  intro C D h
  rw [show ".png".data.reverse = ['g', 'n', 'p', '.'] from by decide,
    show ".jpg".data.reverse = ['g', 'p', 'j', '.'] from by decide] at h
  simp at h

theorem rev_webp_jpg : ∀ C D : List Char,
    ".webp".data.reverse ++ C ≠ ".jpg".data.reverse ++ D := by
  intro C D h
  rw [show ".webp".data.reverse = ['p', 'b', 'e', 'w', '.'] from by decide,
    show ".jpg".data.reverse = ['g', 'p', 'j', '.'] from by decide] at h
  simp at h

theorem dir_ext_data (dir id ext : String) :
    (dir ++ "/" ++ (id ++ ext)).data = ((dir ++ "/").data ++ id.data) ++ ext.data := by
  rw [strAppend_data, strAppend_data]
  simp [List.append_assoc]

/-- C10: the Blob Store's save and read/delete paths disagree on the file
extension. For any valid id and clean base path: saveImage writes the
full-resolution file to `<imagesPath>/<id>.webp` (and the thumbnail to
`<thumbnailsPath>/<id>.jpg`) while getImagePath — used by readImage,
imageExists and deleteImage — builds `<imagesPath>/<id>.png`. Consequently,
right after saving an image, readImage returns null (not-found), imageExists
is false, and deleteImage reports success without removing the `.webp` file
saveImage created. -/
theorem c10_extension_mismatch (ism : ISM) (id freshId : String)
    (bytes : List Nat) (fs : FS) (encW encT : List Nat → List Nat)
    (hbase : goodPath ism.basePath = true)
    (hid : validId id = true)
    (hfresh : fsRead fs (getImagePath ism id) = none) :
    (saveImage encW encT ism bytes (some id) freshId fs).1.imagePath =
      imagesPath ism ++ "/" ++ (id ++ ".webp") ∧
    (saveImage encW encT ism bytes (some id) freshId fs).1.thumbnailPath =
      thumbnailsPath ism ++ "/" ++ (id ++ ".jpg") ∧
    getImagePath ism id = imagesPath ism ++ "/" ++ (id ++ ".png") ∧
    readImage ism id (saveImage encW encT ism bytes (some id) freshId fs).2 =
      Except.ok none ∧
    imageExists ism id (saveImage encW encT ism bytes (some id) freshId fs).2 = false ∧
    (deleteImage ism id (saveImage encW encT ism bytes (some id) freshId fs).2).1 =
      Except.ok true ∧
    fsRead (deleteImage ism id (saveImage encW encT ism bytes (some id) freshId fs).2).2
        (imagesPath ism ++ "/" ++ (id ++ ".webp")) = some (encW bytes) := by
  have himg : imagesPath ism = ism.basePath ++ "/" ++ "images" :=
    pathJoin_plain _ _ hbase (by decide) (by decide)
  have hthm : thumbnailsPath ism = ism.basePath ++ "/" ++ "thumbnails" :=
    pathJoin_plain _ _ hbase (by decide) (by decide)
  have hgoodI : goodPath (imagesPath ism) = true := by
    rw [himg]
    exact goodPath_append_seg _ _ hbase (by decide) (by decide)
  have hgoodT : goodPath (thumbnailsPath ism) = true := by
    rw [hthm]
    exact goodPath_append_seg _ _ hbase (by decide) (by decide)
  have hidne := validId_ne_empty id hid
  have hidns := validId_no_slash id hid
  have hseg : ∀ ext : String, ext.data.length = 4 ∨ ext.data.length = 5 →
      '/' ∉ ext.data →
      plainSeg ((id ++ ext).data) = true ∧ '/' ∉ (id ++ ext).data := by
    intro ext hlen hsl
    rw [strAppend_data]
    constructor
    · apply plainSeg_of_len
      rw [List.length_append]
      have : 0 < id.data.length := List.length_pos.mpr hidne
      omega
    · intro hm
      rcases List.mem_append.mp hm with hm | hm
      · exact hidns hm
      · exact hsl hm
  have hsegP := hseg ".png" (by left; decide) (by decide)
  have hsegW := hseg ".webp" (by right; decide) (by decide)
  have hsegJ := hseg ".jpg" (by left; decide) (by decide)
  have hpng : pathJoin (imagesPath ism) (id ++ ".png") =
      imagesPath ism ++ "/" ++ (id ++ ".png") :=
    pathJoin_plain _ _ hgoodI hsegP.1 hsegP.2
  have hwebp : pathJoin (imagesPath ism) (id ++ ".webp") =
      imagesPath ism ++ "/" ++ (id ++ ".webp") :=
    pathJoin_plain _ _ hgoodI hsegW.1 hsegW.2
  have hjpg : pathJoin (thumbnailsPath ism) (id ++ ".jpg") =
      thumbnailsPath ism ++ "/" ++ (id ++ ".jpg") :=
    pathJoin_plain _ _ hgoodT hsegJ.1 hsegJ.2
  have hne_pw : imagesPath ism ++ "/" ++ (id ++ ".png") ≠
      imagesPath ism ++ "/" ++ (id ++ ".webp") :=
    strne_of_ext _ _ _ _ _ _ (dir_ext_data _ _ _) (dir_ext_data _ _ _) rev_png_webp
  have hne_pj : imagesPath ism ++ "/" ++ (id ++ ".png") ≠
      thumbnailsPath ism ++ "/" ++ (id ++ ".jpg") :=
    strne_of_ext _ _ _ _ _ _ (dir_ext_data _ _ _) (dir_ext_data _ _ _) rev_png_jpg
  have hne_wj : imagesPath ism ++ "/" ++ (id ++ ".webp") ≠
      thumbnailsPath ism ++ "/" ++ (id ++ ".jpg") :=
    strne_of_ext _ _ _ _ _ _ (dir_ext_data _ _ _) (dir_ext_data _ _ _) rev_webp_jpg
  have hidnes : id ≠ "" := by
    intro hc
    rw [hc] at hidne
    exact hidne rfl
  have hsave : saveImage encW encT ism bytes (some id) freshId fs =
      ({ id := id,
         imagePath := imagesPath ism ++ "/" ++ (id ++ ".webp"),
         thumbnailPath := thumbnailsPath ism ++ "/" ++ (id ++ ".jpg"),
         fileSize := bytes.length },
       fsWrite (fsWrite fs (imagesPath ism ++ "/" ++ (id ++ ".webp")) (encW bytes))
         (thumbnailsPath ism ++ "/" ++ (id ++ ".jpg")) (encT bytes)) := by
    simp only [saveImage]
    rw [if_neg hidnes, hwebp, hjpg]
  have hgp : getImagePath ism id = imagesPath ism ++ "/" ++ (id ++ ".png") := by
    unfold getImagePath
    exact hpng
  have hreadsaved : fsRead (saveImage encW encT ism bytes (some id) freshId fs).2
      (imagesPath ism ++ "/" ++ (id ++ ".png")) = none := by
    rw [hsave]
    rw [fsRead_write, if_neg hne_pj, fsRead_write, if_neg hne_pw]
    rw [hgp] at hfresh
    exact hfresh
  refine ⟨by rw [hsave], by rw [hsave], hgp, ?_, ?_, ?_, ?_⟩
  · unfold readImage
    rw [if_neg (by rw [hid]; intro hc; cases hc)]
    rw [hgp, hreadsaved]
  · unfold imageExists
    rw [hpng, hreadsaved]
    rfl
  · unfold deleteImage
    rw [if_neg (by rw [hid]; intro hc; cases hc)]
  · unfold deleteImage
    rw [if_neg (by rw [hid]; intro hc; cases hc)]
    show fsRead (fsRemove (fsRemove (saveImage encW encT ism bytes (some id) freshId fs).2
      (pathJoin (imagesPath ism) (id ++ ".png")))
      (pathJoin (thumbnailsPath ism) (id ++ ".jpg"))) _ = _
    rw [hpng, hjpg, fsRead_remove, if_neg hne_wj, fsRead_remove, if_neg (Ne.symm hne_pw)]
    rw [hsave, fsRead_write, if_neg hne_wj, fsRead_write, if_pos rfl]

/-- Witness for C10 at a concrete store: base path `store`, id `abc`, a
one-byte image, identity encoders, empty filesystem. -/
theorem c10_extension_mismatch_witness :
    (saveImage (fun b => b) (fun b => b) ⟨"store"⟩ [1] (some "abc") "f" []).1.imagePath =
      imagesPath ⟨"store"⟩ ++ "/" ++ ("abc" ++ ".webp") ∧
    (saveImage (fun b => b) (fun b => b) ⟨"store"⟩ [1] (some "abc") "f" []).1.thumbnailPath =
      thumbnailsPath ⟨"store"⟩ ++ "/" ++ ("abc" ++ ".jpg") ∧
    getImagePath ⟨"store"⟩ "abc" = imagesPath ⟨"store"⟩ ++ "/" ++ ("abc" ++ ".png") ∧
    readImage ⟨"store"⟩ "abc"
      (saveImage (fun b => b) (fun b => b) ⟨"store"⟩ [1] (some "abc") "f" []).2 =
      Except.ok none ∧
    imageExists ⟨"store"⟩ "abc"
      (saveImage (fun b => b) (fun b => b) ⟨"store"⟩ [1] (some "abc") "f" []).2 = false ∧
    (deleteImage ⟨"store"⟩ "abc"
      (saveImage (fun b => b) (fun b => b) ⟨"store"⟩ [1] (some "abc") "f" []).2).1 =
      Except.ok true ∧
    fsRead (deleteImage ⟨"store"⟩ "abc"
        (saveImage (fun b => b) (fun b => b) ⟨"store"⟩ [1] (some "abc") "f" []).2).2
      (imagesPath ⟨"store"⟩ ++ "/" ++ ("abc" ++ ".webp")) = some [1] :=
  c10_extension_mismatch ⟨"store"⟩ "abc" "f" [1] [] (fun b => b) (fun b => b)
    (by decide) (by decide) (by decide)

end PasteBro
